import Mathlib

/-!
Verification development for the output/notification core of a security
scanner (package `output`, file `v2/pkg/output/output.go`).

Go strings are modelled as `List Char` (sequences of unicode scalar values);
byte-level operations (`[]byte(s)`, base64) go through an explicit UTF-8
encoder.  Machine integers are modelled as `Nat` with explicit clamping where
the Go code can overflow (`strconv.Atoi`).  I/O and network outcomes are
passed in explicitly as environment parameters, and stateful functions
return their updated state together with a trace of observable effects.
-/

/-- Coercion from a Lean string literal to the `List Char` representation
used throughout this development. -/
def str (s : String) : List Char := s.data

/-- Character class of the Go regexp escape `\s` (RE2): tab, newline,
form feed, carriage return, space. -/
def isGoSpace (c : Char) : Bool :=
  c == ' ' || c == '\t' || c == '\n' || c == '\x0c' || c == '\r'

/-- Character class of the Go regexp escape `\d`. -/
def isGoDigit (c : Char) : Bool := '0' ≤ c && c ≤ '9'

/-- Character class `[\w-]` of the header-name pattern in
`extractResponseData` (`\w` in RE2 is `[0-9A-Za-z_]`). -/
def isWordOrDash (c : Char) : Bool :=
  ('a' ≤ c && c ≤ 'z') || ('A' ≤ c && c ≤ 'Z') || isGoDigit c || c == '_' || c == '-'

/-- Character class `[\n\r]` used by the header pattern's line terminator. -/
def isCRLF (c : Char) : Bool := c == '\n' || c == '\r'

/-- Character class `[0-9;]` of the ANSI color-code regexp
`\x1B\[[0-9;]*[a-zA-Z]` (`decolorizerRegex`, output.go line 72). -/
def isAnsiParam (c : Char) : Bool := isGoDigit c || c == ';'

/-- Character class `[a-zA-Z]` of the ANSI color-code regexp. -/
def isAsciiLetter (c : Char) : Bool :=
  ('a' ≤ c && c ≤ 'z') || ('A' ≤ c && c ≤ 'Z')

/-- ASCII lower-casing of one character.  `strings.ToLower` is applied by the
source only to captured header names, which match `[\w-]+` and are therefore
ASCII, so the ASCII-only model is faithful on all reachable inputs. -/
def goToLower (c : Char) : Char :=
  if 'A' ≤ c && c ≤ 'Z' then Char.ofNat (c.toNat + 32) else c

/-- Model of `strings.ToLower` on captured header names. -/
def lowerL (l : List Char) : List Char := l.map goToLower

/-- Decimal value of a digit string (the mathematical value, no overflow). -/
def digitsToNat (l : List Char) : Nat :=
  l.foldl (fun a c => a * 10 + (c.toNat - 48)) 0

/-- Largest value of Go's 64-bit `int`. -/
def maxInt64 : Nat := 2 ^ 63 - 1

/-- Model of `strconv.Atoi` on a nonempty digit string: `strconv.ParseInt`
returns the clamped maximum (and a range error, which the source discards)
when the value does not fit in an `int`. -/
def goAtoi (l : List Char) : Nat := min (digitsToNat l) maxInt64

/-! ### Go errors (`github.com/pkg/errors`) -/

/-- Model of a Go `error` value: either a leaf error or a wrapped error as
produced by `errors.Wrap`. -/
inductive GoError where
  | mk (msg : List Char)
  | wrap (msg : List Char) (cause : GoError)
deriving DecidableEq

/-- Model of `errors.Wrap err msg`: returns nil when `err` is nil
(documented behavior of `github.com/pkg/errors`). -/
def wrapOpt (e : Option GoError) (msg : List Char) : Option GoError :=
  match e with
  | none => none
  | some ge => some (.wrap msg ge)

/-- Modelled from the spec: `utils.UnwrapError` (package
`nuclei/v2/pkg/utils`, not part of the given sources) unwraps a
possibly-wrapped error down to its root cause. -/
def rootCause : GoError → GoError
  | .mk m => .mk m
  | .wrap _ c => rootCause c

/-- Message of a Go error; a wrapped error renders as
`"msg: cause"` (behavior of `github.com/pkg/errors`). -/
def GoError.message : GoError → List Char
  | .mk m => m
  | .wrap m c => m ++ str ": " ++ GoError.message c

/-! ### Bytes, UTF-8 and base64 (`encoding/base64`, `b64.StdEncoding`) -/

/-- UTF-8 encoding of one unicode scalar value, as performed by Go's
`[]byte(s)` conversion on a string. -/
def utf8Char (c : Char) : List Nat :=
  let n := c.toNat
  if n < 128 then [n]
  else if n < 2048 then [192 + n / 64, 128 + n % 64]
  else if n < 65536 then [224 + n / 4096, 128 + (n / 64) % 64, 128 + n % 64]
  else [240 + n / 262144, 128 + (n / 4096) % 64, 128 + (n / 64) % 64, 128 + n % 64]

/-- UTF-8 byte sequence of a string. -/
def utf8 (l : List Char) : List Nat := (l.map utf8Char).flatten

/-- Alphabet of `base64.StdEncoding`. -/
def b64Alphabet : List Char :=
  str "ABCDEFGHIJKLMNOPQRSTUVWXYZabcdefghijklmnopqrstuvwxyz0123456789+/"

/-- One output character of standard base64. -/
def b64Char (n : Nat) : Char := b64Alphabet.getD n '='

/-- Standard base64 of a byte sequence with `=` padding
(`b64.StdEncoding.EncodeToString`). -/
def base64 : List Nat → List Char
  | [] => []
  | [b0] => [b64Char (b0 / 4), b64Char (b0 % 4 * 16), '=', '=']
  | [b0, b1] => [b64Char (b0 / 4), b64Char (b0 % 4 * 16 + b1 / 16), b64Char (b1 % 16 * 4), '=']
  | b0 :: b1 :: b2 :: rest =>
    b64Char (b0 / 4) :: b64Char (b0 % 4 * 16 + b1 / 16) ::
    b64Char (b1 % 16 * 4 + b2 / 64) :: b64Char (b2 % 64) :: base64 rest

/-- Model of `b64.StdEncoding.EncodeToString([]byte(s))`. -/
def b64s (l : List Char) : List Char := base64 (utf8 l)

/-! ### The response normalizer `extractResponseData` (output.go lines 339-365)

The two regexps are embedded as deterministic scanners with RE2/Perl
leftmost-first semantics.  For the status pattern
`^HTTP/(\d+\.\d+)\s+(\d+)\s+.*` every adjacent pair of character classes is
disjoint, so greedy matching is exactly maximal munch.  For the header
pattern `(?m)^([\w-]+):\s*([^\n\r]*)[\n\r]+` the only backtracking the Perl
preference order can perform is shortening the greedy `\s*` run when the rest
of the input holds no `[\n\r]` character; this happens exactly when
everything after the whitespace run is newline-free, in which case the match
succeeds (with an empty value capture) if and only if the whitespace run
itself contains a `[\n\r]` character, ending at the last such character. -/

/-- Splits a character run at its last `[\n\r]` character, returning that
character and the suffix after it. -/
def splitAfterLastCRLF : List Char → Option (Char × List Char)
  | [] => none
  | c :: rest =>
    match splitAfterLastCRLF rest with
    | some p => some p
    | none => if isCRLF c then some (c, rest) else none

/-- Matches `\s*([^\n\r]*)[\n\r]+` at the start of `t` with leftmost-first
semantics.  Returns the value capture, the remaining input after the match,
and the last character consumed by the match (which decides whether the next
position is a line start for `(?m)^`). -/
def headerValueTail (t : List Char) : Option (List Char × List Char × Char) :=
  let u := t.dropWhile isGoSpace
  let v := u.takeWhile (fun c => !(isCRLF c))
  let n := u.dropWhile (fun c => !(isCRLF c))
  match n with
  | nc :: _ =>
    some (v, n.dropWhile isCRLF, (n.takeWhile isCRLF).getLastD nc)
  | [] =>
    match splitAfterLastCRLF (t.takeWhile isGoSpace) with
    | some (c, rem) => some ([], rem ++ u, c)
    | none => none

/-- Matches `([\w-]+):\s*([^\n\r]*)[\n\r]+` at the start of `s`.  Returns the
name and value captures, the remaining input, and the last consumed
character. -/
def tryHeaderAt (s : List Char) : Option ((List Char × List Char) × List Char × Char) :=
  let name := s.takeWhile isWordOrDash
  let r := s.dropWhile isWordOrDash
  if name = [] then none
  else if r.head? ≠ some ':' then none
  else
    match headerValueTail r.tail with
    | some (v, rem, lc) => some ((name, v), rem, lc)
    | none => none

/-- Fueled scanner implementing `FindAllStringSubmatch` of the header
pattern: at every line start (`(?m)^`: position 0 or right after a `'\n'`)
it attempts a match, consumes it on success, and otherwise advances one
character.  Fuel of `s.length` always suffices since every step consumes at
least one character. -/
def headerScanF : Nat → Bool → List Char → List (List Char × List Char)
  | 0, _, _ => []
  | _ + 1, _, [] => []
  | f + 1, atStart, c :: rest =>
    if atStart then
      match tryHeaderAt (c :: rest) with
      | some (nv, rem, lc) => nv :: headerScanF f (lc == '\n') rem
      | none => headerScanF f (c == '\n') rest
    else headerScanF f (c == '\n') rest

/-- All header matches of the pattern `(?m)^([\w-]+):\s*([^\n\r]*)[\n\r]+`
in `s`, in order. -/
def headerScan (atStart : Bool) (s : List Char) : List (List Char × List Char) :=
  headerScanF s.length atStart s

/-- Association-list model of a Go `map[string]string` insertion: an existing
key is updated in place, a new key is appended. -/
def insertA (m : List (List Char × List Char)) (k v : List Char) : List (List Char × List Char) :=
  match m with
  | [] => [(k, v)]
  | (k', v') :: rest => if k' == k then (k', v) :: rest else (k', v') :: insertA rest k v

/-- Lookup in the association-list model of a Go map. -/
def lookupA (m : List (List Char × List Char)) (k : List Char) : Option (List Char) :=
  match m with
  | [] => none
  | (k', v') :: rest => if k' == k then some v' else lookupA rest k

/-- Matches `^HTTP/(\d+\.\d+)\s+(\d+)\s+.*` at the start of `s` (the pattern
is anchored; without `(?m)` the anchor means start of text).  Returns the two
captures: the version characters and the status-code digits. -/
def statusCapture (s : List Char) : Option (List Char × List Char) :=
  if s.take 5 ≠ str "HTTP/" then none
  else
    let r0 := s.drop 5
    let v1 := r0.takeWhile isGoDigit
    let r1 := r0.dropWhile isGoDigit
    if v1 = [] then none
    else if r1.head? ≠ some '.' then none
    else
      let r2 := r1.tail
      let v2 := r2.takeWhile isGoDigit
      let r3 := r2.dropWhile isGoDigit
      if v2 = [] then none
      else
        let ws := r3.takeWhile isGoSpace
        let r4 := r3.dropWhile isGoSpace
        if ws = [] then none
        else
          let code := r4.takeWhile isGoDigit
          let r5 := r4.dropWhile isGoDigit
          if code = [] then none
          else
            match r5.head? with
            | some c5 => if isGoSpace c5 then some (v1 ++ '.' :: v2, code) else none
            | none => none

/-- Model of `extractResponseData` (output.go lines 339-365): header map
built with lower-cased names and last-write-wins duplicates, then HTTP
version and status code from the status line, with version `""` and code `0`
when the status pattern does not match. -/
def extractResponseData (s : List Char) : List Char × Nat × List (List Char × List Char) :=
  let headers := (headerScan true s).foldl (fun m p => insertA m (lowerL p.1) p.2) []
  match statusCapture s with
  | some (v, code) => (v, goAtoi code, headers)
  | none => ([], 0, headers)

/-! ### `sanitizeFileName` (output.go lines 517-529) -/

/-- Boolean prefix test on character lists. -/
def isPref : List Char → List Char → Bool
  | [], _ => true
  | _ :: _, [] => false
  | a :: as, b :: bs => a == b && isPref as bs

/-- Fueled model of `strings.ReplaceAll` (non-overlapping leftmost
replacement); fuel of `s.length` always suffices for a nonempty pattern. -/
def replaceAllF (pat new : List Char) : Nat → List Char → List Char
  | 0, s => s
  | _ + 1, [] => []
  | f + 1, c :: rest =>
    if pat ≠ [] ∧ isPref pat (c :: rest) = true then
      new ++ replaceAllF pat new f (rest.drop (pat.length - 1))
    else c :: replaceAllF pat new f rest

/-- Model of `strings.ReplaceAll s pat new`. -/
def replaceAll (pat new s : List Char) : List Char := replaceAllF pat new s.length s

/-- Whether `pat` occurs as a contiguous substring of `s`. -/
def occurs (pat s : List Char) : Bool := s.tails.any (fun t => isPref pat t)

/-- Model of `strings.TrimPrefix`. -/
def trimPref (pre s : List Char) : List Char :=
  if isPref pre s then s.drop pre.length else s

/-- Model of `sanitizeFileName` (output.go lines 517-529).  The host OS check
`osutils.IsWindows()` is passed in as the parameter `isWin`. -/
def sanitizeFileName (isWin : Bool) (fileName : List Char) : List Char :=
  let s1 := replaceAll (str "http:") [] fileName
  let s2 := replaceAll (str "https:") [] s1
  let s3 := replaceAll ['/'] ['_'] s2
  let s4 := replaceAll ['\\'] ['_'] s3
  let s5 := replaceAll ['-'] ['_'] s4
  let s6 := replaceAll ['.'] ['_'] s5
  let s7 := if isWin then replaceAll [':'] ['_'] s6 else s6
  trimPref (str "__") s7

/-! ### The ANSI decolorizer (`decolorizerRegex.ReplaceAll(data, []byte(""))`) -/

/-- Fueled model of stripping every match of `\x1B\[[0-9;]*[a-zA-Z]`;
classes `[0-9;]` and `[a-zA-Z]` are disjoint, so greedy matching is maximal
munch, and a failed match at an ESC advances one character. -/
def decolorizeF : Nat → List Char → List Char
  | 0, s => s
  | _ + 1, [] => []
  | f + 1, c :: rest =>
    if c == '\x1b' then
      match rest with
      | '[' :: r2 =>
        match r2.dropWhile isAnsiParam with
        | d :: r4 =>
          if isAsciiLetter d then decolorizeF f r4 else c :: decolorizeF f rest
        | [] => c :: decolorizeF f rest
      | _ => c :: decolorizeF f rest
    else c :: decolorizeF f rest

/-- Model of the ANSI color-code stripping applied to non-JSON renderings. -/
def decolorize (s : List Char) : List Char := decolorizeF s.length s

/-! ### Data model (output.go lines 52-70, 111-159, 324-337)

Fields of `ResultEvent` that the given code never reads or writes (info
block, matcher names, metadata map, interaction, lines, ...) are elided;
the modelled fields are exactly the ones `Write` touches plus the identity
fields. -/

/-- Model of `AstraMeta` (output.go lines 324-331). -/
structure AstraMeta where
  event : List Char
  auditId : List Char
  jobId : List Char
  scanId : List Char
  webhookToken : List Char
  hostname : List Char
deriving DecidableEq

/-- Model of `ResultEvent` (output.go lines 111-159), restricted to the
fields the writer reads or writes. -/
structure ResultEvent where
  template : List Char
  templateURL : List Char
  templateID : List Char
  templatePath : List Char
  request : List Char
  response : List Char
  timestamp : Nat
deriving DecidableEq

/-- Model of `StandardWriter` (output.go lines 52-70).  The three
`io.WriteCloser` sinks are modelled by presence flags (their write outcomes
are environment parameters of each call); the mutex is implicit in the
`lock`/`unlock` events of the effect trace; the colorizer functions are
elided. -/
structure StandardWriter where
  json : Bool
  jsonReqResp : Bool
  timestamp : Bool
  noMetadata : Bool
  matcherStatus : Bool
  astraMeta : AstraMeta
  astraWebhook : List Char
  astraApiServiceName : List Char
  outputFileSet : Bool
  traceFileSet : Bool
  errorFileSet : Bool
  storeResponse : Bool
  storeResponseDir : List Char
deriving DecidableEq

/-- Model of the fields of `types.Options` read by `NewStandardWriter`
(empty string means the sink is not configured, as in the source). -/
structure GoOptions where
  resume : List Char
  output : List Char
  traceLogFile : List Char
  errorLogFile : List Char
  storeResponse : Bool
  storeResponseDir : List Char
  jsonl : Bool
  jsonRequests : Bool
  noMeta : Bool
  matcherStatus : Bool
  timestampOpt : Bool
deriving DecidableEq

/-! ### The lifecycle notifier `sendStatusChangeRequest` (output.go lines 279-322) -/

/-- Marshaled body of the status PATCH: `{"status": action}` plus
`"pid": "15"` when the action is `RUNNING` (output.go lines 283-287). -/
structure StatusBody where
  status : List Char
  pid : Option (List Char)
deriving DecidableEq

/-- Observable network effects of the notifier. -/
inductive NEffect where
  | patch (serviceName : List Char) (scanId : List Char) (body : StatusBody)
  | webhook (meta : AstraMeta) (context : List Char)
deriving DecidableEq

/-- Outcome of a Go function with no return value: normal return, or an
unrecovered runtime panic. -/
inductive NOutcome where
  | ok
  | panicked
deriving DecidableEq

/-- Model of `sendStatusChangeRequest` (output.go lines 279-322).  The two
transport results are environment parameters: `none` models a failed
`client.Do`/`http.Post` (which in Go returns a nil response and a non-nil
error, both errors being discarded by the source); `some status` models any
completed HTTP exchange.  Accessing `.Status` on a nil response (output.go
lines 300 and 320) is a nil-pointer dereference, modelled as `panicked`.
The returned `AstraMeta` reflects the in-place mutation of `w.AstraMeta.Event`
(output.go lines 307, 310). -/
def sendStatusChangeRequest (w : StandardWriter) (action : List Char)
    (patchResp postResp : Option (List Char)) :
    NOutcome × AstraMeta × List NEffect :=
  let body : StatusBody :=
    { status := action, pid := if action == str "RUNNING" then some (str "15") else none }
  let e1 := NEffect.patch w.astraApiServiceName w.astraMeta.scanId body
  match patchResp with
  | none => (.panicked, w.astraMeta, [e1])
  | some _ =>
    let ev := if action == str "RUNNING" then str "scan.started" else str "scan.complete"
    let ctx :=
      if action == str "RUNNING" then str "\x7b\"reason\":\"Scan Started successfully\"\x7d"
      else str "\x7b\"reason\":\"Scan Completed successfully\"\x7d"
    let meta2 := { w.astraMeta with event := ev }
    let e2 := NEffect.webhook meta2 ctx
    match postResp with
    | none => (.panicked, meta2, [e1, e2])
    | some _ => (.ok, meta2, [e1, e2])

/-! ### The finding writer `Write` (output.go lines 367-432) -/

/-- Environment of one `Write` call: the external collaborators
(`utils.TemplatePathURL` and the two renderers are package code outside the
given sources, passed in as opaque functions per the spec's "external
collaborators"), plus the outcomes of the webhook POST and of the primary
output-file write. -/
structure WriteEnv where
  tpu : List Char → List Char × List Char
  formatJSON : ResultEvent → Option GoError × List Char
  formatScreen : ResultEvent → List Char
  postResp : Option (List Char)
  fileWriteErr : Option GoError

/-- Observable effects of one `Write` call, in order: mutex acquisition,
the webhook alert POST, the append to the primary output file, mutex
release. -/
inductive WEffect where
  | lock
  | webhookPost (meta : AstraMeta) (context : List Char)
  | fileAppend (data : List Char)
  | unlock
deriving DecidableEq

/-- Outcome of a Go function returning `error`: a normal return carrying the
(possibly nil) error value, or an unrecovered panic. -/
inductive GoOutcome where
  | panicked
  | ret (e : Option GoError)
deriving DecidableEq

/-- One rendered header line `fmt.Sprintf("%s: %s\n", name, value)`
(output.go line 382). -/
def headerLine (p : List Char × List Char) : List Char :=
  p.1 ++ ':' :: ' ' :: p.2 ++ ['\n']

/-- Canonical reduced response rendering (output.go lines 380-383):
`"HTTP version: <v>\nStatus code: <c>\n"` followed by one header line per
captured header.  Go map iteration order is unspecified; the model fixes the
first-insertion order of the association list. -/
def canonicalRender (v : List Char) (code : Nat) (hs : List (List Char × List Char)) : List Char :=
  str "HTTP version: " ++ v ++ '\n' ::
    (str "Status code: " ++ (Nat.repr code).data ++ '\n' :: (hs.map headerLine).flatten)

/-- In-place mutations `Write` performs on the event before rendering
(output.go lines 369-387): template identity enrichment, timestamp stamping,
response normalization, base64 encoding of request and response. -/
def processedEvent (tpu : List Char → List Char × List Char) (now : Nat)
    (e : ResultEvent) : ResultEvent :=
  let e1 :=
    if e.templatePath ≠ [] then
      { e with template := (tpu e.templatePath).1, templateURL := (tpu e.templatePath).2 }
    else e
  let e2 := { e1 with timestamp := now }
  let x := extractResponseData e2.response
  let canon := canonicalRender x.1 x.2.1 x.2.2
  { e2 with request := b64s e2.request, response := b64s canon }

/-- Model of `Write` (output.go lines 367-432).  Returns the outcome, the
event after its in-place mutations, and the effect trace.  Notable faithful
details: an empty rendering returns nil before the mutex (lines 397-399); a
failed `http.Post` yields a nil response whose `.Status` access on line 421
panics (the deferred unlock still runs); and a failed output-file write
returns `errors.Wrap(err, ...)` where `err` is the (nil, at that point)
webhook error rather than `writeErr` (line 428), which evaluates to a nil
error. -/
def writeEvent (w : StandardWriter) (env : WriteEnv) (now : Nat) (e : ResultEvent) :
    GoOutcome × ResultEvent × List WEffect :=
  let e4 := processedEvent env.tpu now e
  let fres := if w.json then env.formatJSON e4 else (none, env.formatScreen e4)
  match fres.1 with
  | some fe => (.ret (some (.wrap (str "could not format output") fe)), e4, [])
  | none =>
    let data := fres.2
    if data = [] then (.ret none, e4, [])
    else
      let meta := { w.astraMeta with event := str "alert" }
      match env.postResp with
      | none => (.panicked, e4, [.lock, .webhookPost meta data, .unlock])
      | some _ =>
        if w.outputFileSet then
          let data2 := if !w.json then decolorize data else data
          match env.fileWriteErr with
          | some _ =>
            (.ret (wrapOpt none (str "could not write to output")), e4,
              [.lock, .webhookPost meta data, .fileAppend data2, .unlock])
          | none =>
            (.ret none, e4, [.lock, .webhookPost meta data, .fileAppend data2, .unlock])
        else (.ret none, e4, [.lock, .webhookPost meta data, .unlock])

/-! ### The trace logger `Request` (output.go lines 434-470) -/

/-- Model of `JSONLogRequest` (output.go lines 435-440). -/
structure JSONLogRequest where
  template : List Char
  input : List Char
  errorText : List Char
  typ : List Char
deriving DecidableEq

/-- Observable sink writes of `Request`. -/
inductive LogEffect where
  | traceWrite (r : JSONLogRequest)
  | errorWrite (r : JSONLogRequest)
deriving DecidableEq

/-- Record built by `Request` (output.go lines 447-456): the error text is
the unwrapped root cause's message, or the literal `"none"`. -/
def logRecord (templatePath input requestType : List Char) (err : Option GoError) :
    JSONLogRequest :=
  { template := templatePath, input := input, typ := requestType,
    errorText :=
      match err with
      | some e => (rootCause e).message
      | none => str "none" }

/-- Model of `Request` (output.go lines 443-470).  `jsoniter.Marshal` of a
struct of four strings cannot fail, so the early-return on a marshal error
(lines 458-461) is dead and the marshal is modelled as total. -/
def requestLog (w : StandardWriter) (templatePath input requestType : List Char)
    (err : Option GoError) : List LogEffect :=
  if w.traceFileSet = false ∧ w.errorFileSet = false then []
  else
    (if w.traceFileSet then [LogEffect.traceWrite (logRecord templatePath input requestType err)] else []) ++
      (if err ≠ none ∧ w.errorFileSet then [LogEffect.errorWrite (logRecord templatePath input requestType err)] else [])

/-! ### The constructor `NewStandardWriter` (output.go lines 161-272) -/

/-- Environment of one constructor call: the outcome of
`newFileOutputWriter` per path (package code outside the given sources,
`none` meaning success), the store-response folder state, `os.LookupEnv`,
and the two transport results of the initial `RUNNING` notification. -/
structure CtorEnv where
  openOutcome : List Char → Bool → Option GoError
  folderExists : Bool
  createFolderErr : Option GoError
  envLookup : List Char → Option (List Char)
  patchResp : Option (List Char)
  webhookResp : Option (List Char)

/-- Result of the constructor: a writer plus the notification effects, a
wrapped error (no partial writer), a `gologger.Fatal` process termination,
or an unrecovered panic. -/
inductive CtorResult where
  | ok (w : StandardWriter) (effs : List NEffect)
  | errR (e : GoError)
  | fatal (msg : List Char)
  | panicked (msg : List Char)
deriving DecidableEq

/-- Opening one sink: skipped when the path is empty (output.go lines
170, 178, 186). -/
def openSink (cenv : CtorEnv) (path : List Char) (resume : Bool) : Option GoError :=
  if path.isEmpty then none else cenv.openOutcome path resume

/-- Model of `NewStandardWriter` (output.go lines 161-272): opens the three
sinks (wrapped error on failure), creates the store-response folder
(`gologger.Fatal` on failure), reads the six required environment inputs
(panic when absent, in source order), builds the writer and announces
`RUNNING` (whose nil-response dereference can panic). -/
def NewStandardWriter (options : GoOptions) (cenv : CtorEnv) : CtorResult :=
  let resumeBool := !options.resume.isEmpty
  match openSink cenv options.output resumeBool with
  | some e => .errR (.wrap (str "could not create output file") e)
  | none =>
  match openSink cenv options.traceLogFile resumeBool with
  | some e => .errR (.wrap (str "could not create output file") e)
  | none =>
  match openSink cenv options.errorLogFile resumeBool with
  | some e => .errR (.wrap (str "could not create error file") e)
  | none =>
  if options.storeResponse ∧ cenv.folderExists = false ∧ cenv.createFolderErr ≠ none then
    .fatal (str "Could not create output directory")
  else
  match cenv.envLookup (str "auditId") with
  | none => .panicked (str "Audit Id env not present")
  | some auditId =>
  match cenv.envLookup (str "jobId") with
  | none => .panicked (str "Job Id env not present")
  | some jobId =>
  match cenv.envLookup (str "scanId") with
  | none => .panicked (str "Scan Id env not present")
  | some scanId =>
  match cenv.envLookup (str "webhookToken") with
  | none => .panicked (str "Webhook token env not present")
  | some webhookToken =>
  match cenv.envLookup (str "webhookUrl") with
  | none => .panicked (str "Webhook url env not present")
  | some webhookUrl =>
  match cenv.envLookup (str "DAST_API_SVC_NAME") with
  | none => .panicked (str "Support server env not present")
  | some svcName =>
  let writer : StandardWriter :=
    { json := options.jsonl, jsonReqResp := options.jsonRequests,
      noMetadata := options.noMeta, matcherStatus := options.matcherStatus,
      timestamp := options.timestampOpt,
      astraMeta :=
        { event := str "alert", hostname := str "k8s", auditId := auditId,
          jobId := jobId, scanId := scanId, webhookToken := webhookToken },
      astraWebhook := webhookUrl, astraApiServiceName := svcName,
      outputFileSet := !options.output.isEmpty,
      traceFileSet := !options.traceLogFile.isEmpty,
      errorFileSet := !options.errorLogFile.isEmpty,
      storeResponse := options.storeResponse,
      storeResponseDir := options.storeResponseDir }
  match sendStatusChangeRequest writer (str "RUNNING") cenv.patchResp cenv.webhookResp with
  | (.panicked, _, _) => .panicked (str "nil pointer dereference")
  | (.ok, meta2, effs) => .ok { writer with astraMeta := meta2 } effs

/-! ### Interleaving model of concurrent `Write` calls (output.go lines 400-430)

Each of `n` workers performs the critical section of one successful `Write`:
acquire `w.mutex` (line 400), POST the webhook alert (line 419), append the
rendered bytes to the primary output file (line 427), then release the mutex
(deferred, line 401).  A schedule is a list of thread indices; a scheduled
thread takes its next enabled step, or stutters when blocked on the lock. -/

/-- Program counter of one worker inside `Write`'s critical section. -/
inductive WPc where
  | start
  | inCS
  | posted
  | finished
deriving DecidableEq

/-- Events a worker emits: its webhook alert POST and its append of its
finding's serialized bytes to the primary output file. -/
inductive CEv where
  | postE (i : Nat)
  | appendE (i : Nat)
deriving DecidableEq

/-- Shared state: per-worker program counters, the mutex owner, and the
global trace of emitted events. -/
structure CSt where
  pcs : List WPc
  lock : Option Nat
  trace : List CEv
deriving DecidableEq

/-- Initial state for `n` workers. -/
def initSt (n : Nat) : CSt := ⟨List.replicate n .start, none, []⟩

/-- One scheduled step of worker `i` (stutter when not enabled). -/
def stepT (s : CSt) (i : Nat) : CSt :=
  match s.pcs[i]? with
  | some .start =>
    if s.lock = none then { s with pcs := s.pcs.set i .inCS, lock := some i } else s
  | some .inCS => { s with pcs := s.pcs.set i .posted, trace := s.trace ++ [.postE i] }
  | some .posted =>
    { s with pcs := s.pcs.set i .finished, lock := none, trace := s.trace ++ [.appendE i] }
  | _ => s

/-- Run a schedule from the initial state of `n` workers. -/
def runSched (n : Nat) (sched : List Nat) : CSt := sched.foldl stepT (initSt n)

/-- Whether every worker has completed its `Write` critical section. -/
def allFinished (s : CSt) : Bool := s.pcs.all (fun p => p == .finished)

/-- The contiguous event block of worker `i`'s finding. -/
def block (i : Nat) : List CEv := [.postE i, .appendE i]

/-- Whether an event is a webhook alert POST. -/
def isPostEv : CEv → Bool
  | .postE _ => true
  | .appendE _ => false

/-- Whether an event is a primary-file append. -/
def isAppendEv : CEv → Bool
  | .postE _ => false
  | .appendE _ => true

/-! ### Structured well-formed raw responses (for the normalizer contract)

A value of `RawResponse` describes a raw response text of the shape the
spec's normalizer property quantifies over: a valid
`HTTP/<v> <code> <reason>` status line followed by `name: value` header
lines.  `renderResponse` is its textual form; the well-formedness predicate
states exactly the side conditions under which the property is settled. -/

/-- One structured header line: a name and a value. -/
def hdrWF (p : List Char × List Char) : Bool :=
  !p.1.isEmpty && p.1.all isWordOrDash &&
    !p.2.isEmpty && !isGoSpace (p.2.headD 'x') && p.2.all (fun c => !(isCRLF c))

/-- Structured raw response: version digits `<v1>.<v2>`, status-code digits,
reason text, and header (name, value) pairs. -/
structure RawResponse where
  v1 : List Char
  v2 : List Char
  code : List Char
  reason : List Char
  headers : List (List Char × List Char)
deriving DecidableEq

/-- Textual form of one header line, `name: value` terminated by CRLF. -/
def renderHeaderL (p : List Char × List Char) : List Char :=
  p.1 ++ ':' :: ' ' :: p.2 ++ ['\r', '\n']

/-- Textual form of a header block. -/
def renderHeaders (hs : List (List Char × List Char)) : List Char :=
  (hs.map renderHeaderL).flatten

/-- Textual form of the status line `HTTP/<v1>.<v2> <code> <reason>`. -/
def statusLineChars (r : RawResponse) : List Char :=
  str "HTTP/" ++ r.v1 ++ '.' :: r.v2 ++ ' ' :: r.code ++ ' ' :: r.reason

/-- Textual form of a structured raw response. -/
def renderResponse (r : RawResponse) : List Char :=
  statusLineChars r ++ '\r' :: '\n' :: renderHeaders r.headers

/-- Well-formedness: version and code are nonempty digit runs, the code fits
in a Go `int`, the reason holds no newline, and every header has a nonempty
`[\w-]+` name and a nonempty value that does not start with whitespace and
holds no `[\n\r]` character. -/
def RawResponse.wf (r : RawResponse) : Bool :=
  !r.v1.isEmpty && r.v1.all isGoDigit && !r.v2.isEmpty && r.v2.all isGoDigit &&
    !r.code.isEmpty && r.code.all isGoDigit && decide (digitsToNat r.code ≤ maxInt64) &&
    r.reason.all (fun c => !(c == '\n')) && r.headers.all hdrWF

/-- Invariant tying program counters, lock ownership and the emitted trace
of the interleaving model: completed workers account for a prefix of whole
`block`s, and the lock owner may additionally have a pending alert POST at
the end of the trace. -/
def TraceInv (n : Nat) (s : CSt) : Prop :=
  s.pcs.length = n ∧
  ∃ l : List Nat, l.Nodup ∧ (∀ i : Nat, i ∈ l ↔ s.pcs[i]? = some WPc.finished) ∧
    ((s.lock = none ∧ s.trace = (l.map block).flatten ∧
       (∀ i : Nat, s.pcs[i]? ≠ some WPc.inCS ∧ s.pcs[i]? ≠ some WPc.posted)) ∨
     (∃ j : Nat, s.lock = some j ∧
       (∀ i : Nat, i ≠ j → s.pcs[i]? ≠ some WPc.inCS ∧ s.pcs[i]? ≠ some WPc.posted) ∧
       ((s.pcs[j]? = some WPc.inCS ∧ s.trace = (l.map block).flatten) ∨
        (s.pcs[j]? = some WPc.posted ∧
          s.trace = (l.map block).flatten ++ [.postE j]))))

/-! ### Sample concrete values used to instantiate the general theorems -/

/-- Sample scan metadata. -/
def sampleMeta : AstraMeta :=
  { event := str "alert", auditId := str "a1", jobId := str "j1", scanId := str "s1",
    webhookToken := str "tok", hostname := str "k8s" }

/-- Sample writer in screen (non-JSON) mode with a primary output file. -/
def sampleWriter : StandardWriter :=
  { json := false, jsonReqResp := false, timestamp := false, noMetadata := false,
    matcherStatus := false, astraMeta := sampleMeta, astraWebhook := str "http://wh",
    astraApiServiceName := str "svc", outputFileSet := true, traceFileSet := false,
    errorFileSet := false, storeResponse := false, storeResponseDir := [] }

/-- Sample writer in JSON mode. -/
def jsonWriter : StandardWriter := { sampleWriter with json := true }

/-- Sample writer with trace and error sinks configured. -/
def logWriter : StandardWriter := { sampleWriter with traceFileSet := true, errorFileSet := true }

/-- Sample finding. -/
def sampleEvent : ResultEvent :=
  { template := [], templateURL := [], templateID := str "tid", templatePath := [],
    request := str "GET / HTTP/1.1", response := str "HTTP/1.1 200 OK\r\nA: b\r\n",
    timestamp := 5 }

/-- Sample environment where every network and file operation succeeds and
the JSON renderer yields the fixed nonempty output `X`. -/
def happyEnv : WriteEnv :=
  { tpu := fun p => (p, p), formatJSON := fun _ => (none, str "X"),
    formatScreen := fun _ => str "X", postResp := some (str "200 OK"),
    fileWriteErr := none }

/-- Sample environment whose renderers produce empty output. -/
def emptyRenderEnv : WriteEnv :=
  { tpu := fun p => (p, p), formatJSON := fun _ => (none, []),
    formatScreen := fun _ => [], postResp := some (str "200 OK"),
    fileWriteErr := none }

/-- Sample environment where the webhook POST succeeds but the append to the
primary output file fails. -/
def failWriteEnv : WriteEnv :=
  { happyEnv with fileWriteErr := some (.mk (str "disk full")) }

/-- Sample constructor environment where everything succeeds. -/
def happyCtorEnv : CtorEnv :=
  { openOutcome := fun _ _ => none, folderExists := true, createFolderErr := none,
    envLookup := fun _ => some (str "v"), patchResp := some (str "200 OK"),
    webhookResp := some (str "200 OK") }

/-- Sample constructor environment where only the trace-log sink path fails
to open. -/
def traceFailCtorEnv : CtorEnv :=
  { happyCtorEnv with
    openOutcome := fun p _ => if p = str "trace.txt" then some (.mk (str "EACCES")) else none }

/-- Sample constructor environment where only the error-log sink path fails
to open. -/
def errorFailCtorEnv : CtorEnv :=
  { happyCtorEnv with
    openOutcome := fun p _ => if p = str "err.txt" then some (.mk (str "EACCES")) else none }

/-- Sample options with all three sinks configured. -/
def sampleOptions : GoOptions :=
  { resume := [], output := str "out.txt", traceLogFile := str "trace.txt",
    errorLogFile := str "err.txt", storeResponse := true, storeResponseDir := str "dir",
    jsonl := true, jsonRequests := false, noMeta := false, matcherStatus := false,
    timestampOpt := false }

/-- Sample structured raw response (the spec's normalizer example). -/
def sampleRaw : RawResponse :=
  { v1 := str "1", v2 := str "1", code := str "200", reason := str "OK",
    headers := [(str "Content-Type", str "text/html")] }

/-! ## Supporting lemmas -/

theorem processedEvent_timestamp (tpu : List Char → List Char × List Char) (now : Nat)
    (e : ResultEvent) : (processedEvent tpu now e).timestamp = now := by
  dsimp only [processedEvent]

theorem processedEvent_request (tpu : List Char → List Char × List Char) (now : Nat)
    (e : ResultEvent) : (processedEvent tpu now e).request = b64s e.request := by
  dsimp only [processedEvent]
  split <;> rfl

theorem processedEvent_response (tpu : List Char → List Char × List Char) (now : Nat)
    (e : ResultEvent) :
    (processedEvent tpu now e).response =
      b64s (canonicalRender (extractResponseData e.response).1
        (extractResponseData e.response).2.1 (extractResponseData e.response).2.2) := by
  dsimp only [processedEvent]
  split <;> rfl

theorem writeEvent_event_eq (w : StandardWriter) (env : WriteEnv) (now : Nat)
    (e : ResultEvent) : (writeEvent w env now e).2.1 = processedEvent env.tpu now e := by
  dsimp only [writeEvent]
  repeat' split
  all_goals rfl

/-! ## Claim theorems -/

/-- C5: for every event passed to `Write`, after the call the event's
`Timestamp` equals the clock value of the call (overriding any
caller-supplied value), its `Request` field holds the base64 encoding of the
original request text, and its `Response` field holds the base64 encoding of
the canonical rendering produced from the normalizer's output — never raw
bytes. -/
theorem c5_write_stamps_and_encodes (w : StandardWriter) (env : WriteEnv) (now : Nat)
    (e : ResultEvent) :
    (writeEvent w env now e).2.1.timestamp = now ∧
    (writeEvent w env now e).2.1.request = b64s e.request ∧
    (writeEvent w env now e).2.1.response =
      b64s (canonicalRender (extractResponseData e.response).1
        (extractResponseData e.response).2.1 (extractResponseData e.response).2.2) := by
  rw [writeEvent_event_eq]
  exact ⟨processedEvent_timestamp _ _ _, processedEvent_request _ _ _,
    processedEvent_response _ _ _⟩

/-- C10: when rendering a finding yields zero bytes, `Write` returns nil
immediately with an empty effect trace (no mutex acquisition, no webhook
POST, no file append), even though the event's timestamp, request and
response fields have already been mutated in place. -/
theorem c10_empty_render (w : StandardWriter) (env : WriteEnv) (now : Nat) (e : ResultEvent)
    (hfmt : (if w.json then env.formatJSON (processedEvent env.tpu now e)
      else ((none : Option GoError), env.formatScreen (processedEvent env.tpu now e))) =
      (none, [])) :
    writeEvent w env now e = (.ret none, processedEvent env.tpu now e, []) ∧
    (processedEvent env.tpu now e).timestamp = now ∧
    (processedEvent env.tpu now e).request = b64s e.request ∧
    (processedEvent env.tpu now e).response =
      b64s (canonicalRender (extractResponseData e.response).1
        (extractResponseData e.response).2.1 (extractResponseData e.response).2.2) := by
  refine ⟨?_, processedEvent_timestamp _ _ _, processedEvent_request _ _ _,
    processedEvent_response _ _ _⟩
  dsimp only [writeEvent]
  rw [hfmt]
  simp

/-- Witness for C10 at a concrete writer, environment and event. -/
theorem c10_empty_render_witness :
    ((if sampleWriter.json then emptyRenderEnv.formatJSON (processedEvent emptyRenderEnv.tpu 7 sampleEvent)
      else ((none : Option GoError), emptyRenderEnv.formatScreen (processedEvent emptyRenderEnv.tpu 7 sampleEvent))) =
      (none, [])) ∧
    writeEvent sampleWriter emptyRenderEnv 7 sampleEvent =
      (.ret none, processedEvent emptyRenderEnv.tpu 7 sampleEvent, []) :=
  ⟨rfl, (c10_empty_render sampleWriter emptyRenderEnv 7 sampleEvent rfl).1⟩

/-- C1: when the webhook POST succeeds and the append of the rendered bytes
to the configured primary output file fails, `Write` returns
`errors.Wrap(err, "could not write to output")` where `err` is the (nil)
webhook error instead of `writeErr` (output.go line 428), so the returned
error is nil rather than a non-nil wrapped error describing the write
failure; the webhook alert has already been posted at that point and no
compensating action is performed. -/
theorem c1_write_failure_returns_nil :
    (writeEvent jsonWriter failWriteEnv 7 sampleEvent).1 = GoOutcome.ret none ∧
    (writeEvent jsonWriter failWriteEnv 7 sampleEvent).2.2 =
      [WEffect.lock, WEffect.webhookPost { sampleMeta with event := str "alert" } (str "X"),
       WEffect.fileAppend (str "X"), WEffect.unlock] := by
  constructor <;> rfl

/-- C2 counterexample: a failed HTTP call on the lifecycle path (the
transport returns a nil response) makes `sendStatusChangeRequest` dereference
the nil response at its status-logging line (output.go line 300), i.e. the
call panics, refuting the claim that an absent response cannot cause a
panic. -/
theorem c2_counterexample :
    (sendStatusChangeRequest sampleWriter (str "RUNNING") none (some (str "200 OK"))).1 =
      NOutcome.panicked := rfl

/-- C2 amended: errors from the network layer are never returned to the
caller — whenever the transport produces a response object (regardless of
its HTTP status) the lifecycle call returns normally, and `Write` never
panics when its webhook POST produces a response — but a transport failure
yielding a nil response panics instead of being treated as success. -/
theorem c2_amended (w : StandardWriter) (action p q : List Char) (env : WriteEnv)
    (now : Nat) (e : ResultEvent) (r : List Char) :
    (sendStatusChangeRequest w action (some p) (some q)).1 = NOutcome.ok ∧
    (env.postResp = some r → (writeEvent w env now e).1 ≠ GoOutcome.panicked) := by
  constructor
  · rfl
  · intro hp
    dsimp only [writeEvent]
    rw [hp]
    repeat' split
    all_goals simp_all

/-- Witness for C2's amended theorem at concrete inputs. -/
theorem c2_amended_witness :
    happyEnv.postResp = some (str "200 OK") ∧
    (sendStatusChangeRequest sampleWriter (str "COMPLETE") (some (str "a")) (some (str "b"))).1 =
      NOutcome.ok ∧
    (writeEvent sampleWriter happyEnv 7 sampleEvent).1 ≠ GoOutcome.panicked :=
  ⟨rfl,
    (c2_amended sampleWriter (str "COMPLETE") (str "a") (str "b") happyEnv 7 sampleEvent
      (str "200 OK")).1,
    (c2_amended sampleWriter (str "COMPLETE") (str "a") (str "b") happyEnv 7 sampleEvent
      (str "200 OK")).2 rfl⟩

/-- C7: for every raw response text on which the status pattern fails,
`extractResponseData` yields version `""` and status code `0` without any
error, and a `Write` call whose event carries such a response still proceeds
through the normal pipeline and returns nil. -/
theorem c7_no_status_line (s : List Char) (w : StandardWriter) (env : WriteEnv) (now : Nat)
    (e : ResultEvent) (d r : List Char)
    (h : statusCapture s = none) (_he : e.response = s)
    (hfmt : (if w.json then env.formatJSON (processedEvent env.tpu now e)
      else ((none : Option GoError), env.formatScreen (processedEvent env.tpu now e))) =
      (none, d))
    (hd : d ≠ []) (hp : env.postResp = some r) (hw : env.fileWriteErr = none) :
    (extractResponseData s).1 = [] ∧ (extractResponseData s).2.1 = 0 ∧
    (writeEvent w env now e).1 = GoOutcome.ret none := by
  refine ⟨?_, ?_, ?_⟩
  · simp [extractResponseData, h]
  · simp [extractResponseData, h]
  · dsimp only [writeEvent]
    rw [hfmt]
    simp only [hd, hp, hw]
    repeat' split
    all_goals simp_all

/-- Witness for C7 at the concrete status-line-free response `hello`. -/
theorem c7_no_status_line_witness :
    statusCapture (str "hello") = none ∧
    (extractResponseData (str "hello")).1 = [] ∧
    (extractResponseData (str "hello")).2.1 = 0 ∧
    (writeEvent jsonWriter happyEnv 7 { sampleEvent with response := str "hello" }).1 =
      GoOutcome.ret none := by
  refine ⟨rfl, ?_⟩
  have h := c7_no_status_line (str "hello") jsonWriter happyEnv 7
    { sampleEvent with response := str "hello" } (str "X") (str "200 OK")
    rfl rfl rfl (by decide) rfl rfl
  exact h

/-- C8: `Request` is a no-op when neither trace nor error sink is
configured; it always writes the record to the trace sink when one exists;
it writes the same record to the error sink exactly when the error is
non-nil and the error sink exists; and the record's error field is the
unwrapped root cause's message for a non-nil error and the literal `none`
otherwise. -/
theorem c8_request_logging (w : StandardWriter) (tp inp rt : List Char) (err : Option GoError) :
    (w.traceFileSet = false → w.errorFileSet = false → requestLog w tp inp rt err = []) ∧
    (w.traceFileSet = true →
      LogEffect.traceWrite (logRecord tp inp rt err) ∈ requestLog w tp inp rt err) ∧
    (LogEffect.errorWrite (logRecord tp inp rt err) ∈ requestLog w tp inp rt err ↔
      w.errorFileSet = true ∧ err ≠ none) ∧
    (∀ ge, err = some ge → (logRecord tp inp rt err).errorText = (rootCause ge).message) ∧
    (err = none → (logRecord tp inp rt err).errorText = str "none") := by
  cases ht : w.traceFileSet <;> cases herr : w.errorFileSet <;> cases err <;>
    simp [requestLog, logRecord, ht, herr]

/-- Witness for C8 at concrete sink configurations and a concrete wrapped
error. -/
theorem c8_request_logging_witness :
    requestLog sampleWriter (str "t") (str "i") (str "http") none = [] ∧
    LogEffect.traceWrite
        (logRecord (str "t") (str "i") (str "http")
          (some (GoError.wrap (str "outer") (.mk (str "root"))))) ∈
      requestLog logWriter (str "t") (str "i") (str "http")
        (some (GoError.wrap (str "outer") (.mk (str "root")))) ∧
    (logRecord (str "t") (str "i") (str "http")
        (some (GoError.wrap (str "outer") (.mk (str "root"))))).errorText =
      (rootCause (GoError.wrap (str "outer") (.mk (str "root")))).message :=
  ⟨(c8_request_logging sampleWriter (str "t") (str "i") (str "http") none).1 rfl rfl,
    (c8_request_logging logWriter (str "t") (str "i") (str "http")
      (some (GoError.wrap (str "outer") (.mk (str "root"))))).2.1 rfl,
    (c8_request_logging logWriter (str "t") (str "i") (str "http")
      (some (GoError.wrap (str "outer") (.mk (str "root"))))).2.2.2.1 _ rfl⟩

/-- C9: construction fails with a wrapped I/O error (producing no writer)
when any configured sink path — primary output, trace log, or error log —
cannot be opened (each checked in source order, so the failing sink's error
is the one wrapped and returned); with all sinks opening it terminates the
process (`gologger.Fatal`) when the configured store-response directory
cannot be created; and with the file system in order it terminates the
process (panic) when any of the six required environment inputs is
absent. -/
theorem c9_constructor (options : GoOptions) (cenv : CtorEnv) :
    (∀ ge, options.output ≠ [] →
      cenv.openOutcome options.output (!options.resume.isEmpty) = some ge →
      NewStandardWriter options cenv = .errR (.wrap (str "could not create output file") ge)) ∧
    (∀ ge, openSink cenv options.output (!options.resume.isEmpty) = none →
      options.traceLogFile ≠ [] →
      cenv.openOutcome options.traceLogFile (!options.resume.isEmpty) = some ge →
      NewStandardWriter options cenv = .errR (.wrap (str "could not create output file") ge)) ∧
    (∀ ge, openSink cenv options.output (!options.resume.isEmpty) = none →
      openSink cenv options.traceLogFile (!options.resume.isEmpty) = none →
      options.errorLogFile ≠ [] →
      cenv.openOutcome options.errorLogFile (!options.resume.isEmpty) = some ge →
      NewStandardWriter options cenv = .errR (.wrap (str "could not create error file") ge)) ∧
    ((∀ p b, cenv.openOutcome p b = none) → options.storeResponse = true →
      cenv.folderExists = false → ∀ ge, cenv.createFolderErr = some ge →
      NewStandardWriter options cenv = .fatal (str "Could not create output directory")) ∧
    ((∀ p b, cenv.openOutcome p b = none) →
      (options.storeResponse = false ∨ cenv.folderExists = true ∨ cenv.createFolderErr = none) →
      ((cenv.envLookup (str "auditId")).isNone ∨ (cenv.envLookup (str "jobId")).isNone ∨
        (cenv.envLookup (str "scanId")).isNone ∨ (cenv.envLookup (str "webhookToken")).isNone ∨
        (cenv.envLookup (str "webhookUrl")).isNone ∨
        (cenv.envLookup (str "DAST_API_SVC_NAME")).isNone) →
      ∃ m, NewStandardWriter options cenv = .panicked m) := by
  refine ⟨?_, ?_, ?_, ?_, ?_⟩
  · intro ge hne he
    have hop : openSink cenv options.output (!options.resume.isEmpty) = some ge := by
      simp [openSink, hne, he]
    dsimp only [NewStandardWriter]
    rw [hop]
  · intro ge hout hne he
    have hop2 : openSink cenv options.traceLogFile (!options.resume.isEmpty) = some ge := by
      simp [openSink, hne, he]
    dsimp only [NewStandardWriter]
    rw [hout, hop2]
  · intro ge hout htr hne he
    have hop3 : openSink cenv options.errorLogFile (!options.resume.isEmpty) = some ge := by
      simp [openSink, hne, he]
    dsimp only [NewStandardWriter]
    rw [hout, htr, hop3]
  · intro hopen hsr hfe ge hcf
    have hop : ∀ p, openSink cenv p (!options.resume.isEmpty) = none := by
      intro p; simp [openSink, hopen]
    dsimp only [NewStandardWriter]
    rw [hop, hop, hop]
    rw [if_pos ⟨hsr, hfe, by simp [hcf]⟩]
  · intro hopen hfolder hmiss
    have hop : ∀ p, openSink cenv p (!options.resume.isEmpty) = none := by
      intro p; simp [openSink, hopen]
    have hcond : ¬(options.storeResponse = true ∧ cenv.folderExists = false ∧
        cenv.createFolderErr ≠ none) := by
      rcases hfolder with h | h | h <;> simp [h]
    dsimp only [NewStandardWriter]
    rw [hop, hop, hop, if_neg hcond]
    cases hA : cenv.envLookup (str "auditId") with
    | none => exact ⟨_, rfl⟩
    | some a =>
      cases hJ : cenv.envLookup (str "jobId") with
      | none => exact ⟨_, rfl⟩
      | some b =>
        cases hS : cenv.envLookup (str "scanId") with
        | none => exact ⟨_, rfl⟩
        | some c =>
          cases hT : cenv.envLookup (str "webhookToken") with
          | none => exact ⟨_, rfl⟩
          | some d =>
            cases hU : cenv.envLookup (str "webhookUrl") with
            | none => exact ⟨_, rfl⟩
            | some u =>
              cases hF : cenv.envLookup (str "DAST_API_SVC_NAME") with
              | none => exact ⟨_, rfl⟩
              | some f =>
                exfalso
                simp [hA, hJ, hS, hT, hU, hF] at hmiss

/-- Witness for C9: a failing output-file open, a failing trace-log open, a
failing error-log open, a failing store-response directory creation, and a
missing environment input, each at concrete inputs. -/
theorem c9_constructor_witness :
    NewStandardWriter sampleOptions
        { happyCtorEnv with openOutcome := fun _ _ => some (.mk (str "EACCES")) } =
      .errR (.wrap (str "could not create output file") (.mk (str "EACCES"))) ∧
    NewStandardWriter sampleOptions traceFailCtorEnv =
      .errR (.wrap (str "could not create output file") (.mk (str "EACCES"))) ∧
    NewStandardWriter sampleOptions errorFailCtorEnv =
      .errR (.wrap (str "could not create error file") (.mk (str "EACCES"))) ∧
    NewStandardWriter sampleOptions
        { happyCtorEnv with folderExists := false, createFolderErr := some (.mk (str "EROFS")) } =
      .fatal (str "Could not create output directory") ∧
    ∃ m, NewStandardWriter sampleOptions
        { happyCtorEnv with envLookup := fun _ => none } = .panicked m :=
  ⟨(c9_constructor sampleOptions
      { happyCtorEnv with openOutcome := fun _ _ => some (.mk (str "EACCES")) }).1
      (.mk (str "EACCES")) (by decide) rfl,
    (c9_constructor sampleOptions traceFailCtorEnv).2.1
      (.mk (str "EACCES")) rfl (by decide) rfl,
    (c9_constructor sampleOptions errorFailCtorEnv).2.2.1
      (.mk (str "EACCES")) rfl rfl (by decide) rfl,
    (c9_constructor sampleOptions
      { happyCtorEnv with folderExists := false, createFolderErr := some (.mk (str "EROFS")) }).2.2.2.1
      (fun _ _ => rfl) rfl rfl (.mk (str "EROFS")) rfl,
    (c9_constructor sampleOptions
      { happyCtorEnv with envLookup := fun _ => none }).2.2.2.2
      (fun _ _ => rfl) (Or.inr (Or.inl rfl)) (Or.inl rfl)⟩

/-! ### Lemmas about `replaceAll` -/

theorem replaceAllF_congr (pat new : List Char) :
    ∀ (f g : Nat) (s : List Char), s.length ≤ f → s.length ≤ g →
      replaceAllF pat new f s = replaceAllF pat new g s := by
  intro f
  induction f with
  | zero =>
    intro g s hf _
    have : s = [] := List.length_eq_zero.1 (Nat.le_zero.1 hf)
    subst this
    cases g <;> rfl
  | succ f ih =>
    intro g s hf hg
    cases s with
    | nil => cases g <;> rfl
    | cons c rest =>
      cases g with
      | zero => exact absurd hg (by simp)
      | succ g =>
        simp only [replaceAllF]
        have hr : rest.length ≤ f := by simpa using hf
        have hr' : rest.length ≤ g := by simpa using hg
        split
        · have hd : (rest.drop (pat.length - 1)).length ≤ rest.length := by
            simp [List.length_drop]
          rw [ih g (rest.drop (pat.length - 1)) (le_trans hd hr) (le_trans hd hr')]
        · rw [ih g rest hr hr']

theorem replaceAll_nil (pat new : List Char) : replaceAll pat new [] = [] := rfl

theorem replaceAll_cons_pos (pat new : List Char) (c : Char) (rest : List Char)
    (hp : pat ≠ []) (h : isPref pat (c :: rest) = true) :
    replaceAll pat new (c :: rest) = new ++ replaceAll pat new (rest.drop (pat.length - 1)) := by
  show replaceAllF pat new (rest.length + 1) (c :: rest) = _
  simp only [replaceAllF, if_pos (And.intro hp h)]
  rw [replaceAllF_congr pat new rest.length (rest.drop (pat.length - 1)).length
    (rest.drop (pat.length - 1)) (by simp [List.length_drop]) le_rfl]
  rfl

theorem replaceAll_cons_neg (pat new : List Char) (c : Char) (rest : List Char)
    (h : ¬(pat ≠ [] ∧ isPref pat (c :: rest) = true)) :
    replaceAll pat new (c :: rest) = c :: replaceAll pat new rest := by
  show replaceAllF pat new (rest.length + 1) (c :: rest) = _
  simp only [replaceAllF, if_neg h]
  rfl

theorem occurs_cons (pat : List Char) (c : Char) (rest : List Char) :
    occurs pat (c :: rest) = (isPref pat (c :: rest) || occurs pat rest) := by
  simp [occurs]

theorem replaceAll_of_not_occurs (pat new : List Char) :
    ∀ s, occurs pat s = false → replaceAll pat new s = s := by
  intro s
  induction s with
  | nil => intro _; rfl
  | cons c rest ih =>
    intro h
    rw [occurs_cons] at h
    rcases Bool.or_eq_false_iff.1 h with ⟨h1, h2⟩
    rw [replaceAll_cons_neg pat new c rest (by simp [h1]), ih h2]

theorem mem_replaceAll_aux (pat new : List Char) :
    ∀ (n : Nat) (s : List Char), s.length ≤ n → ∀ a, a ∈ replaceAll pat new s → a ∈ s ∨ a ∈ new := by
  intro n
  induction n with
  | zero =>
    intro s hs a ha
    have : s = [] := List.length_eq_zero.1 (Nat.le_zero.1 hs)
    subst this
    simp [replaceAll_nil] at ha
  | succ n ih =>
    intro s hs a ha
    cases s with
    | nil => simp [replaceAll_nil] at ha
    | cons c rest =>
      have hr : rest.length ≤ n := by simpa using hs
      by_cases hc : pat ≠ [] ∧ isPref pat (c :: rest) = true
      · rw [replaceAll_cons_pos pat new c rest hc.1 hc.2] at ha
        rcases List.mem_append.1 ha with h | h
        · exact Or.inr h
        · have hd : (rest.drop (pat.length - 1)).length ≤ n :=
            le_trans (by simp [List.length_drop]) hr
          rcases ih (rest.drop (pat.length - 1)) hd a h with h' | h'
          · exact Or.inl (List.mem_cons_of_mem c (List.mem_of_mem_drop h'))
          · exact Or.inr h'
      · rw [replaceAll_cons_neg pat new c rest hc] at ha
        rcases List.mem_cons.1 ha with h | h
        · exact Or.inl (h ▸ List.mem_cons_self c rest)
        · rcases ih rest hr a h with h' | h'
          · exact Or.inl (List.mem_cons_of_mem c h')
          · exact Or.inr h'

theorem mem_replaceAll (pat new : List Char) (s : List Char) (a : Char)
    (ha : a ∈ replaceAll pat new s) : a ∈ s ∨ a ∈ new :=
  mem_replaceAll_aux pat new s.length s le_rfl a ha

theorem not_mem_replaceAll_single (c d : Char) (hcd : c ≠ d) :
    ∀ s, c ∉ replaceAll [c] [d] s := by
  intro s
  induction s with
  | nil => simp [replaceAll_nil]
  | cons x rest ih =>
    by_cases hx : c = x
    · subst hx
      rw [replaceAll_cons_pos [c] [d] c rest (by simp) (by simp [isPref])]
      simp only [List.length_cons, List.length_nil, Nat.zero_add, Nat.sub_self, List.drop_zero]
      intro hmem
      rcases List.mem_cons.1 hmem with h | h
      · exact hcd h
      · exact ih h
    · rw [replaceAll_cons_neg [c] [d] x rest (by simp [isPref, hx])]
      intro hmem
      rcases List.mem_cons.1 hmem with h | h
      · exact hx h
      · exact ih h

theorem not_mem_replaceAll_preserve (pat new s : List Char) (a : Char)
    (hs : a ∉ s) (hn : a ∉ new) : a ∉ replaceAll pat new s := by
  intro hmem
  rcases mem_replaceAll pat new s a hmem with h | h
  · exact hs h
  · exact hn h

theorem not_occurs_single (a : Char) : ∀ s, a ∉ s → occurs [a] s = false := by
  intro s
  induction s with
  | nil => intro _; rfl
  | cons c rest ih =>
    intro h
    rw [occurs_cons]
    have h1 : a ≠ c := fun hac => h (hac ▸ List.mem_cons_self c rest)
    have h2 : a ∉ rest := fun hr => h (List.mem_cons_of_mem c hr)
    simp [isPref, ih h2, h1]

theorem mem_trimPref (pre s : List Char) (a : Char) (h : a ∈ trimPref pre s) : a ∈ s := by
  unfold trimPref at h
  split at h
  · exact List.mem_of_mem_drop h
  · exact h

theorem trimPref_of_not (pre s : List Char) (h : isPref pre s = false) : trimPref pre s = s := by
  unfold trimPref
  simp [h]

theorem sanitize_char_free (isWin : Bool) (x : List Char) :
    '/' ∉ sanitizeFileName isWin x ∧ '\\' ∉ sanitizeFileName isWin x ∧
    '-' ∉ sanitizeFileName isWin x ∧ '.' ∉ sanitizeFileName isWin x ∧
    (isWin = true → ':' ∉ sanitizeFileName isWin x) := by
  refine ⟨?_, ?_, ?_, ?_, ?_⟩
  · intro hmem
    dsimp only [sanitizeFileName] at hmem
    have h7 := mem_trimPref _ _ _ hmem
    have h6 : '/' ∈ replaceAll ['.'] ['_'] (replaceAll ['-'] ['_'] (replaceAll ['\\'] ['_']
        (replaceAll ['/'] ['_'] (replaceAll (str "https:") [] (replaceAll (str "http:") [] x))))) := by
      split at h7
      · rcases mem_replaceAll _ _ _ _ h7 with h | h
        · exact h
        · exact absurd h (by decide)
      · exact h7
    rcases mem_replaceAll _ _ _ _ h6 with h5 | h
    · rcases mem_replaceAll _ _ _ _ h5 with h4 | h
      · rcases mem_replaceAll _ _ _ _ h4 with h3 | h
        · exact not_mem_replaceAll_single '/' '_' (by decide) _ h3
        · exact absurd h (by decide)
      · exact absurd h (by decide)
    · exact absurd h (by decide)
  · intro hmem
    dsimp only [sanitizeFileName] at hmem
    have h7 := mem_trimPref _ _ _ hmem
    have h6 : '\\' ∈ replaceAll ['.'] ['_'] (replaceAll ['-'] ['_'] (replaceAll ['\\'] ['_']
        (replaceAll ['/'] ['_'] (replaceAll (str "https:") [] (replaceAll (str "http:") [] x))))) := by
      split at h7
      · rcases mem_replaceAll _ _ _ _ h7 with h | h
        · exact h
        · exact absurd h (by decide)
      · exact h7
    rcases mem_replaceAll _ _ _ _ h6 with h5 | h
    · rcases mem_replaceAll _ _ _ _ h5 with h4 | h
      · exact not_mem_replaceAll_single '\\' '_' (by decide) _ h4
      · exact absurd h (by decide)
    · exact absurd h (by decide)
  · intro hmem
    dsimp only [sanitizeFileName] at hmem
    have h7 := mem_trimPref _ _ _ hmem
    have h6 : '-' ∈ replaceAll ['.'] ['_'] (replaceAll ['-'] ['_'] (replaceAll ['\\'] ['_']
        (replaceAll ['/'] ['_'] (replaceAll (str "https:") [] (replaceAll (str "http:") [] x))))) := by
      split at h7
      · rcases mem_replaceAll _ _ _ _ h7 with h | h
        · exact h
        · exact absurd h (by decide)
      · exact h7
    rcases mem_replaceAll _ _ _ _ h6 with h5 | h
    · exact not_mem_replaceAll_single '-' '_' (by decide) _ h5
    · exact absurd h (by decide)
  · intro hmem
    dsimp only [sanitizeFileName] at hmem
    have h7 := mem_trimPref _ _ _ hmem
    have h6 : '.' ∈ replaceAll ['.'] ['_'] (replaceAll ['-'] ['_'] (replaceAll ['\\'] ['_']
        (replaceAll ['/'] ['_'] (replaceAll (str "https:") [] (replaceAll (str "http:") [] x))))) := by
      split at h7
      · rcases mem_replaceAll _ _ _ _ h7 with h | h
        · exact h
        · exact absurd h (by decide)
      · exact h7
    exact not_mem_replaceAll_single '.' '_' (by decide) _ h6
  · intro hw hmem
    subst hw
    dsimp only [sanitizeFileName] at hmem
    have h7 := mem_trimPref _ _ _ hmem
    rw [if_pos rfl] at h7
    exact not_mem_replaceAll_single ':' '_' (by decide) _ h7

theorem sanitize_id_of (isWin : Bool) (y : List Char)
    (h1 : occurs (str "http:") y = false) (h2 : occurs (str "https:") y = false)
    (h3 : isPref (str "__") y = false)
    (h4 : '/' ∉ y) (h5 : '\\' ∉ y) (h6 : '-' ∉ y) (h7 : '.' ∉ y)
    (h8 : isWin = true → ':' ∉ y) :
    sanitizeFileName isWin y = y := by
  dsimp only [sanitizeFileName]
  rw [replaceAll_of_not_occurs _ _ _ h1, replaceAll_of_not_occurs _ _ _ h2,
    replaceAll_of_not_occurs _ _ _ (not_occurs_single _ _ h4),
    replaceAll_of_not_occurs _ _ _ (not_occurs_single _ _ h5),
    replaceAll_of_not_occurs _ _ _ (not_occurs_single _ _ h6),
    replaceAll_of_not_occurs _ _ _ (not_occurs_single _ _ h7)]
  cases isWin with
  | true =>
    rw [if_pos rfl, replaceAll_of_not_occurs _ _ _ (not_occurs_single _ _ (h8 rfl)),
      trimPref_of_not _ _ h3]
  | false =>
    rw [if_neg (by simp), trimPref_of_not _ _ h3]

/-- C4 counterexample: `sanitizeFileName` is not idempotent — on input
`....` one application yields `__` (the four dots become underscores, then
one leading `__` is trimmed), while a second application trims the remaining
leading `__` to the empty string. -/
theorem c4_counterexample :
    sanitizeFileName false (sanitizeFileName false (str "....")) ≠
      sanitizeFileName false (str "....") := by decide

/-- C4 amended: the output of `sanitizeFileName` never contains `/` or `\`;
`sanitizeFileName "https://example.com/path" = "example_com_path"`; and the
function is idempotent on exactly those outputs that contain no residual
`http:`/`https:` occurrence and do not still start with `__` (unconditional
idempotence fails, see the counterexample). -/
theorem c4_amended (isWin : Bool) (x : List Char) :
    ('/' ∉ sanitizeFileName isWin x ∧ '\\' ∉ sanitizeFileName isWin x) ∧
    sanitizeFileName false (str "https://example.com/path") = str "example_com_path" ∧
    (occurs (str "http:") (sanitizeFileName isWin x) = false →
      occurs (str "https:") (sanitizeFileName isWin x) = false →
      isPref (str "__") (sanitizeFileName isWin x) = false →
      sanitizeFileName isWin (sanitizeFileName isWin x) = sanitizeFileName isWin x) := by
  obtain ⟨hs, hb, hd, hdot, hcol⟩ := sanitize_char_free isWin x
  refine ⟨⟨hs, hb⟩, by decide, ?_⟩
  intro h1 h2 h3
  exact sanitize_id_of isWin _ h1 h2 h3 hs hb hd hdot hcol

/-- Witness for C4's amended theorem: the conditional-idempotence hypotheses
hold at `abc`, where the sanitized output is `abc` itself. -/
theorem c4_amended_witness :
    (occurs (str "http:") (sanitizeFileName false (str "abc")) = false ∧
      occurs (str "https:") (sanitizeFileName false (str "abc")) = false ∧
      isPref (str "__") (sanitizeFileName false (str "abc")) = false) ∧
    sanitizeFileName false (sanitizeFileName false (str "abc")) =
      sanitizeFileName false (str "abc") :=
  ⟨⟨by decide, by decide, by decide⟩,
    (c4_amended false (str "abc")).2.2 (by decide) (by decide) (by decide)⟩

/-! ### Lemmas for the interleaving model -/

theorem countP_post_blocks (l : List Nat) :
    ((l.map block).flatten.countP isPostEv) = l.length := by
  induction l with
  | nil => rfl
  | cons a as ih =>
    simp [block, List.countP_append, List.countP_cons, isPostEv, ih]

theorem countP_append_blocks (l : List Nat) :
    ((l.map block).flatten.countP isAppendEv) = l.length := by
  induction l with
  | nil => rfl
  | cons a as ih =>
    simp [block, List.countP_append, List.countP_cons, isAppendEv, ih]

theorem initSt_inv (n : Nat) : TraceInv n (initSt n) := by
  refine ⟨by simp [initSt], [], List.nodup_nil, ?_, Or.inl ⟨rfl, rfl, ?_⟩⟩
  · intro i
    constructor
    · intro h; exact absurd h (List.not_mem_nil i)
    · intro h
      rw [show (initSt n).pcs = List.replicate n WPc.start from rfl,
        List.getElem?_replicate] at h
      split at h
      · cases h
      · cases h
  · intro i
    constructor <;>
      · intro h
        rw [show (initSt n).pcs = List.replicate n WPc.start from rfl,
          List.getElem?_replicate] at h
        split at h
        · cases h
        · cases h

theorem stepT_inv (n : Nat) (s : CSt) (i : Nat) (h : TraceInv n s) :
    TraceInv n (stepT s i) := by
  obtain ⟨hlen, l, hnd, hmem, hlock⟩ := h
  cases hpc : s.pcs[i]? with
  | none =>
    have hstep : stepT s i = s := by unfold stepT; rw [hpc]
    rw [hstep]; exact ⟨hlen, l, hnd, hmem, hlock⟩
  | some pc =>
    have hlt : i < s.pcs.length := (List.getElem?_eq_some_iff.1 hpc).1
    cases pc with
    | start =>
      rcases hlock with ⟨hl0, htr, hno⟩ | ⟨j, hlj, hoth, hdisj⟩
      · have hstep : stepT s i = { s with pcs := s.pcs.set i WPc.inCS, lock := some i } := by
          unfold stepT; rw [hpc]; simp [hl0]
        rw [hstep]
        refine ⟨by simpa using hlen, l, hnd, ?_, Or.inr ⟨i, rfl, ?_, Or.inl ⟨?_, htr⟩⟩⟩
        · intro k
          rcases eq_or_ne k i with rfl | hk
          · rw [List.getElem?_set_self hlt]
            constructor
            · intro hkl
              have := (hmem k).1 hkl
              rw [hpc] at this
              cases this
            · intro hc; cases hc
          · rw [List.getElem?_set_ne (Ne.symm hk)]
            exact hmem k
        · intro k hk
          rw [List.getElem?_set_ne (Ne.symm hk)]
          exact hno k
        · rw [List.getElem?_set_self hlt]
      · have hstep : stepT s i = s := by
          unfold stepT; rw [hpc]; simp [hlj]
        rw [hstep]
        exact ⟨hlen, l, hnd, hmem, Or.inr ⟨j, hlj, hoth, hdisj⟩⟩
    | inCS =>
      rcases hlock with ⟨hl0, htr, hno⟩ | ⟨j, hlj, hoth, hdisj⟩
      · exact absurd hpc (hno i).1
      · rcases eq_or_ne i j with rfl | hij
        · have htr : s.trace = (l.map block).flatten := by
            rcases hdisj with ⟨-, htr⟩ | ⟨hq, -⟩
            · exact htr
            · rw [hpc] at hq; cases hq
          have hstep : stepT s i =
              { s with pcs := s.pcs.set i WPc.posted, trace := s.trace ++ [CEv.postE i] } := by
            unfold stepT; rw [hpc]
          rw [hstep]
          refine ⟨by simpa using hlen, l, hnd, ?_, Or.inr ⟨i, hlj, ?_, Or.inr ⟨?_, ?_⟩⟩⟩
          · intro k
            rcases eq_or_ne k i with rfl | hk
            · rw [List.getElem?_set_self hlt]
              constructor
              · intro hkl
                have := (hmem k).1 hkl
                rw [hpc] at this
                cases this
              · intro hc; cases hc
            · rw [List.getElem?_set_ne (Ne.symm hk)]
              exact hmem k
          · intro k hk
            rw [List.getElem?_set_ne (Ne.symm hk)]
            exact hoth k hk
          · rw [List.getElem?_set_self hlt]
          · rw [htr]
        · exact absurd hpc (hoth i hij).1
    | posted =>
      rcases hlock with ⟨hl0, htr, hno⟩ | ⟨j, hlj, hoth, hdisj⟩
      · exact absurd hpc (hno i).2
      · rcases eq_or_ne i j with rfl | hij
        · have htr : s.trace = (l.map block).flatten ++ [CEv.postE i] := by
            rcases hdisj with ⟨hq, -⟩ | ⟨-, htr⟩
            · rw [hpc] at hq; cases hq
            · exact htr
          have hinot : i ∉ l := by
            intro hin
            have := (hmem i).1 hin
            rw [hpc] at this
            cases this
          have hstep : stepT s i =
              { s with pcs := s.pcs.set i WPc.finished, lock := none, trace := s.trace ++ [CEv.appendE i] } := by
            unfold stepT; rw [hpc]
          rw [hstep]
          refine ⟨by simpa using hlen, l ++ [i], ?_, ?_, Or.inl ⟨rfl, ?_, ?_⟩⟩
          · simp [List.nodup_append, hnd, hinot]
          · intro k
            rcases eq_or_ne k i with rfl | hk
            · rw [List.getElem?_set_self hlt]
              simp
            · rw [List.getElem?_set_ne (Ne.symm hk)]
              simp only [List.mem_append, List.mem_singleton]
              constructor
              · intro hkl
                rcases hkl with hkl | hkl
                · exact (hmem k).1 hkl
                · exact absurd hkl hk
              · intro hf
                exact Or.inl ((hmem k).2 hf)
          · rw [htr]
            simp [block]
          · intro k
            rcases eq_or_ne k i with rfl | hk
            · rw [List.getElem?_set_self hlt]
              constructor <;> (intro hc; cases hc)
            · rw [List.getElem?_set_ne (Ne.symm hk)]
              exact hoth k hk
        · exact absurd hpc (hoth i hij).2
    | finished =>
      have hstep : stepT s i = s := by unfold stepT; rw [hpc]
      rw [hstep]; exact ⟨hlen, l, hnd, hmem, hlock⟩

theorem traceInv_terminal (n : Nat) (s : CSt) (h : TraceInv n s)
    (hfin : allFinished s = true) :
    ∃ l : List Nat, l.Nodup ∧ (∀ i : Nat, i ∈ l ↔ i < n) ∧
      s.trace = (l.map block).flatten ∧
      s.trace.countP isPostEv = n ∧ s.trace.countP isAppendEv = n := by
  obtain ⟨hlen, l, hnd, hmem, hlock⟩ := h
  have hfin' : ∀ i : Nat, i < n → s.pcs[i]? = some WPc.finished := by
    intro i hi
    have hi' : i < s.pcs.length := hlen ▸ hi
    have hp := List.all_eq_true.1 hfin _ (List.getElem_mem hi')
    exact List.getElem?_eq_some_iff.2 ⟨hi', eq_of_beq hp⟩
  have hmem' : ∀ i : Nat, i ∈ l ↔ i < n := by
    intro i
    rw [hmem i]
    constructor
    · intro hf
      exact hlen ▸ (List.getElem?_eq_some_iff.1 hf).1
    · intro hi
      exact hfin' i hi
  have htr : s.trace = (l.map block).flatten := by
    rcases hlock with ⟨-, htr, -⟩ | ⟨j, hlj, hoth, hdisj⟩
    · exact htr
    · exfalso
      rcases hdisj with ⟨hq, -⟩ | ⟨hq, -⟩ <;>
      · have hjlt := (List.getElem?_eq_some_iff.1 hq).1
        rw [hfin' j (hlen ▸ hjlt)] at hq
        cases hq
  have hlength : l.length = n := by
    have h1 : l.toFinset = Finset.range n := by
      ext a
      simp [List.mem_toFinset, hmem' a, Finset.mem_range]
    have h2 := List.toFinset_card_of_nodup hnd
    rw [h1, Finset.card_range] at h2
    exact h2.symm
  exact ⟨l, hnd, hmem', htr, by rw [htr, countP_post_blocks, hlength],
    by rw [htr, countP_append_blocks, hlength]⟩

theorem foldl_stepT_inv (n : Nat) :
    ∀ (sched : List Nat) (st : CSt), TraceInv n st → TraceInv n (sched.foldl stepT st) := by
  intro sched
  induction sched with
  | nil => exact fun st h => h
  | cons a as ih => exact fun st h => ih (stepT st a) (stepT_inv n st a h)

/-- C6: in every complete interleaved execution of `n` concurrent `Write`
calls (every worker has finished), the global trace consists of exactly one
contiguous `[post i, append i]` block per worker — hence exactly `n` webhook
alert POSTs and exactly `n` primary-file appends, with each finding's
serialized bytes appended in one piece — because the notify-plus-persist
sequence runs under the single mutex held for one finding's full handling. -/
theorem c6_serialized (n : Nat) (sched : List Nat)
    (hfin : allFinished (runSched n sched) = true) :
    ∃ l : List Nat, l.Nodup ∧ (∀ i : Nat, i ∈ l ↔ i < n) ∧
      (runSched n sched).trace = (l.map block).flatten ∧
      (runSched n sched).trace.countP isPostEv = n ∧
      (runSched n sched).trace.countP isAppendEv = n := by
  exact traceInv_terminal n (runSched n sched)
    (foldl_stepT_inv n sched (initSt n) (initSt_inv n)) hfin

/-- Witness for C6 with two workers and a concrete complete schedule. -/
theorem c6_serialized_witness :
    allFinished (runSched 2 [0, 0, 0, 1, 1, 1]) = true ∧
    ∃ l : List Nat, l.Nodup ∧ (∀ i : Nat, i ∈ l ↔ i < 2) ∧
      (runSched 2 [0, 0, 0, 1, 1, 1]).trace = (l.map block).flatten ∧
      (runSched 2 [0, 0, 0, 1, 1, 1]).trace.countP isPostEv = 2 ∧
      (runSched 2 [0, 0, 0, 1, 1, 1]).trace.countP isAppendEv = 2 :=
  ⟨by decide, c6_serialized 2 [0, 0, 0, 1, 1, 1] (by decide)⟩

/-! ### Lemmas about the header scanner on well-formed rendered responses -/

theorem dropWhile_length_le (p : Char → Bool) :
    ∀ l : List Char, (l.dropWhile p).length ≤ l.length := by
  intro l
  induction l with
  | nil => exact Nat.le_refl 0
  | cons c rest ih =>
    rw [List.dropWhile_cons]
    split
    · exact Nat.le_succ_of_le ih
    · exact Nat.le_refl _

theorem takeWhile_all_append (p : Char → Bool) :
    ∀ (l r : List Char), (∀ c ∈ l, p c = true) →
      (l ++ r).takeWhile p = l ++ r.takeWhile p := by
  intro l r hl
  induction l with
  | nil => rfl
  | cons c rest ih =>
    have hc : p c = true := hl c (List.mem_cons_self c rest)
    rw [List.cons_append, List.takeWhile_cons, if_pos hc,
      ih (fun x hx => hl x (List.mem_cons_of_mem c hx))]
    rfl

theorem dropWhile_all_append (p : Char → Bool) :
    ∀ (l r : List Char), (∀ c ∈ l, p c = true) →
      (l ++ r).dropWhile p = r.dropWhile p := by
  intro l r hl
  induction l with
  | nil => rfl
  | cons c rest ih =>
    have hc : p c = true := hl c (List.mem_cons_self c rest)
    rw [List.cons_append, List.dropWhile_cons, if_pos hc,
      ih (fun x hx => hl x (List.mem_cons_of_mem c hx))]

theorem takeWhile_stop (p : Char → Bool) (l r : List Char)
    (hl : ∀ c ∈ l, p c = true) (hr : r.takeWhile p = []) :
    (l ++ r).takeWhile p = l := by
  rw [takeWhile_all_append p l r hl, hr, List.append_nil]

theorem takeWhile_nil_of_head (p : Char → Bool) (c : Char) (r : List Char)
    (hc : p c = false) : (c :: r).takeWhile p = [] := by
  rw [List.takeWhile_cons, if_neg (by simp [hc])]

theorem dropWhile_id_of_head (p : Char → Bool) (c : Char) (r : List Char)
    (hc : p c = false) : (c :: r).dropWhile p = c :: r := by
  rw [List.dropWhile_cons, if_neg (by simp [hc])]

theorem dropWhile_head_false (p : Char → Bool) :
    ∀ (l : List Char) (c : Char) (r : List Char), l.dropWhile p = c :: r → p c = false := by
  intro l
  induction l with
  | nil => intro c r h; cases h
  | cons a rest ih =>
    intro c r h
    rw [List.dropWhile_cons] at h
    split at h
    · exact ih c r h
    · cases h
      rename_i hpa
      simpa using hpa


theorem takeWhile_dropWhile_length (p : Char → Bool) (l : List Char) :
    (l.takeWhile p).length + (l.dropWhile p).length = l.length := by
  have h := congrArg List.length (List.takeWhile_append_dropWhile (p := p) (l := l))
  rw [List.length_append] at h
  exact h

theorem splitAfterLastCRLF_length :
    ∀ (l : List Char) (c : Char) (rem : List Char),
      splitAfterLastCRLF l = some (c, rem) → rem.length < l.length := by
  intro l
  induction l with
  | nil => intro c rem h; cases h
  | cons a rest ih =>
    intro c rem h
    unfold splitAfterLastCRLF at h
    cases hs : splitAfterLastCRLF rest with
    | some p =>
      rw [hs] at h
      cases h
      exact Nat.lt_succ_of_lt (ih c rem hs)
    | none =>
      rw [hs] at h
      by_cases hc : isCRLF a = true
      · rw [if_pos hc] at h
        simp only [Option.some.injEq, Prod.mk.injEq] at h
        obtain ⟨-, h2⟩ := h
        rw [← h2]
        exact Nat.lt_succ_self _
      · rw [if_neg hc] at h
        cases h

theorem headerValueTail_length (t : List Char) (v rem : List Char) (lc : Char)
    (h : headerValueTail t = some (v, rem, lc)) : rem.length < t.length := by
  dsimp only [headerValueTail] at h
  cases hn : (t.dropWhile isGoSpace).dropWhile (fun c => !(isCRLF c)) with
  | cons nc ntail =>
    rw [hn] at h
    have hcr : isCRLF nc = true := by
      have := dropWhile_head_false (fun c => !(isCRLF c)) (t.dropWhile isGoSpace) nc ntail hn
      simpa using this
    simp only [Option.some.injEq, Prod.mk.injEq] at h
    obtain ⟨-, hrem, -⟩ := h
    have h1 : rem.length ≤ ntail.length := by
      rw [← hrem, List.dropWhile_cons, if_pos hcr]
      exact dropWhile_length_le isCRLF ntail
    have h2 : (nc :: ntail).length ≤ (t.dropWhile isGoSpace).length := by
      rw [← hn]
      exact dropWhile_length_le _ _
    have h3 : (t.dropWhile isGoSpace).length ≤ t.length := dropWhile_length_le _ _
    exact Nat.lt_of_lt_of_le (Nat.lt_of_lt_of_le (Nat.lt_succ_of_le h1) h2) h3
  | nil =>
    rw [hn] at h
    cases hsp : splitAfterLastCRLF (t.takeWhile isGoSpace) with
    | some p =>
      obtain ⟨c0, rem0⟩ := p
      rw [hsp] at h
      simp only [Option.some.injEq, Prod.mk.injEq] at h
      obtain ⟨-, hrem, -⟩ := h
      have h1 : rem0.length < (t.takeWhile isGoSpace).length :=
        splitAfterLastCRLF_length _ _ _ hsp
      have h2 := takeWhile_dropWhile_length isGoSpace t
      rw [← hrem, List.length_append]
      omega
    | none =>
      rw [hsp] at h
      cases h

theorem tryHeaderAt_length (s : List Char) (nv : List Char × List Char) (rem : List Char)
    (lc : Char) (h : tryHeaderAt s = some (nv, rem, lc)) : rem.length < s.length := by
  dsimp only [tryHeaderAt] at h
  by_cases h1 : s.takeWhile isWordOrDash = []
  · rw [if_pos h1] at h; cases h
  rw [if_neg h1] at h
  by_cases h2 : (s.dropWhile isWordOrDash).head? ≠ some ':'
  · rw [if_pos h2] at h; cases h
  rw [if_neg h2] at h
  have h2' : (s.dropWhile isWordOrDash).head? = some ':' := not_not.1 h2
  cases hdw : s.dropWhile isWordOrDash with
  | nil => rw [hdw] at h2'; cases h2'
  | cons d tl =>
    cases hhv : headerValueTail (s.dropWhile isWordOrDash).tail with
    | none => rw [hhv] at h; cases h
    | some w =>
      obtain ⟨v, rem', lc'⟩ := w
      rw [hhv] at h
      simp only [Option.some.injEq, Prod.mk.injEq] at h
      obtain ⟨-, hrem, -⟩ := h
      have hlt : rem'.length < (s.dropWhile isWordOrDash).tail.length :=
        headerValueTail_length _ _ _ _ hhv
      have hpart := takeWhile_dropWhile_length isWordOrDash s
      have hpos : 0 < (s.takeWhile isWordOrDash).length := List.length_pos.2 h1
      rw [hdw] at hlt hpart
      simp only [List.tail_cons, List.length_cons] at hlt hpart
      rw [← hrem]
      omega

theorem headerScanF_congr :
    ∀ (f g : Nat) (b : Bool) (s : List Char), s.length ≤ f → s.length ≤ g →
      headerScanF f b s = headerScanF g b s := by
  intro f
  induction f with
  | zero =>
    intro g b s hf _
    have : s = [] := List.length_eq_zero.1 (Nat.le_zero.1 hf)
    subst this
    cases g <;> rfl
  | succ f ih =>
    intro g b s hf hg
    cases s with
    | nil => cases g <;> rfl
    | cons c rest =>
      cases g with
      | zero => exact absurd hg (by simp)
      | succ g =>
        have hr : rest.length ≤ f := by simpa using hf
        have hr' : rest.length ≤ g := by simpa using hg
        simp only [headerScanF]
        cases b with
        | false =>
          simp only [Bool.false_eq_true, if_neg]
          exact ih g _ rest hr hr'
        | true =>
          simp only [if_pos]
          cases hth : tryHeaderAt (c :: rest) with
          | none => exact ih g _ rest hr hr'
          | some w =>
            obtain ⟨nv, rem, lc⟩ := w
            have hrl : rem.length < rest.length + 1 := tryHeaderAt_length _ _ _ _ hth
            have hrem : rem.length ≤ f := by omega
            have hrem' : rem.length ≤ g := by omega
            show nv :: headerScanF f (lc == '\n') rem = nv :: headerScanF g (lc == '\n') rem
            rw [ih g _ rem hrem hrem']

theorem headerScan_nil (b : Bool) : headerScan b [] = [] := rfl

theorem headerScan_cons_skip (b : Bool) (c : Char) (cs : List Char)
    (h : b = true → tryHeaderAt (c :: cs) = none) :
    headerScan b (c :: cs) = headerScan (c == '\n') cs := by
  show headerScanF (cs.length + 1) b (c :: cs) = headerScanF cs.length (c == '\n') cs
  cases b with
  | false => simp [headerScanF]
  | true =>
    simp only [headerScanF, if_pos, h rfl]

theorem headerScan_some (s : List Char) (nv : List Char × List Char) (rem : List Char)
    (lc : Char) (h : tryHeaderAt s = some (nv, rem, lc)) :
    headerScan true s = nv :: headerScan (lc == '\n') rem := by
  cases s with
  | nil => simp [tryHeaderAt] at h
  | cons c cs =>
    show headerScanF (cs.length + 1) true (c :: cs) = _
    simp only [headerScanF, if_pos, h]
    have hrl : rem.length < cs.length + 1 := tryHeaderAt_length _ _ _ _ h
    rw [headerScanF_congr cs.length rem.length _ rem (by omega) le_rfl]
    rfl

theorem dropWhile_id_of_takeWhile_nil (p : Char → Bool) (l : List Char)
    (h : l.takeWhile p = []) : l.dropWhile p = l := by
  cases l with
  | nil => rfl
  | cons c rest =>
    rw [List.takeWhile_cons] at h
    split at h
    · cases h
    · rename_i hc
      rw [List.dropWhile_cons, if_neg hc]

theorem wordOrDash_not_crlf (c : Char) (h : isWordOrDash c = true) : isCRLF c = false := by
  have h1 : c ≠ '\n' := by intro hc; subst hc; exact absurd h (by decide)
  have h2 : c ≠ '\r' := by intro hc; subst hc; exact absurd h (by decide)
  simp [isCRLF, h1, h2]

theorem headerValueTail_render (vl R : List Char)
    (hv0 : ∀ c, vl.head? = some c → isGoSpace c = false) (hvl : vl ≠ [])
    (hvcr : ∀ c ∈ vl, isCRLF c = false)
    (hR : R.takeWhile isCRLF = []) :
    headerValueTail (' ' :: (vl ++ '\r' :: '\n' :: R)) = some (vl, R, '\n') := by
  have hu : (' ' :: (vl ++ '\r' :: '\n' :: R)).dropWhile isGoSpace = vl ++ '\r' :: '\n' :: R := by
    rw [List.dropWhile_cons, if_pos (show isGoSpace ' ' = true by decide)]
    cases vl with
    | nil => exact absurd rfl hvl
    | cons v0 vtl =>
      rw [List.cons_append, List.dropWhile_cons,
        if_neg (by simp [hv0 v0 rfl])]
  have hvcr' : ∀ c ∈ vl, (fun x => !(isCRLF x)) c = true := by
    intro c hc; simp [hvcr c hc]
  have hv : (vl ++ '\r' :: '\n' :: R).takeWhile (fun x => !(isCRLF x)) = vl :=
    takeWhile_stop _ _ _ hvcr' (takeWhile_nil_of_head _ _ _ (by decide))
  have hn : (vl ++ '\r' :: '\n' :: R).dropWhile (fun x => !(isCRLF x)) = '\r' :: '\n' :: R := by
    rw [dropWhile_all_append _ _ _ hvcr', dropWhile_id_of_head _ _ _ (by decide)]
  dsimp only [headerValueTail]
  rw [hu, hv, hn]
  have hdrop : ('\r' :: '\n' :: R).dropWhile isCRLF = R := by
    rw [List.dropWhile_cons, if_pos (show isCRLF '\r' = true by decide),
      List.dropWhile_cons, if_pos (show isCRLF '\n' = true by decide),
      dropWhile_id_of_takeWhile_nil isCRLF R hR]
  have htake : ('\r' :: '\n' :: R).takeWhile isCRLF = ['\r', '\n'] := by
    rw [List.takeWhile_cons, if_pos (show isCRLF '\r' = true by decide),
      List.takeWhile_cons, if_pos (show isCRLF '\n' = true by decide), hR]
  rw [hdrop, htake]
  rfl

theorem tryHeaderAt_render (nm vl R : List Char)
    (hnm : nm ≠ []) (hnmw : ∀ c ∈ nm, isWordOrDash c = true)
    (hv0 : ∀ c, vl.head? = some c → isGoSpace c = false) (hvl : vl ≠ [])
    (hvcr : ∀ c ∈ vl, isCRLF c = false)
    (hR : R.takeWhile isCRLF = []) :
    tryHeaderAt (nm ++ ':' :: ' ' :: (vl ++ '\r' :: '\n' :: R)) =
      some ((nm, vl), R, '\n') := by
  have htk : (nm ++ ':' :: ' ' :: (vl ++ '\r' :: '\n' :: R)).takeWhile isWordOrDash = nm :=
    takeWhile_stop _ _ _ hnmw (takeWhile_nil_of_head _ _ _ (by decide))
  have hdr : (nm ++ ':' :: ' ' :: (vl ++ '\r' :: '\n' :: R)).dropWhile isWordOrDash =
      ':' :: ' ' :: (vl ++ '\r' :: '\n' :: R) := by
    rw [dropWhile_all_append _ _ _ hnmw, dropWhile_id_of_head _ _ _ (by decide)]
  dsimp only [tryHeaderAt]
  rw [htk, hdr, if_neg hnm, if_neg (by simp)]
  rw [show (':' :: ' ' :: (vl ++ '\r' :: '\n' :: R)).tail = ' ' :: (vl ++ '\r' :: '\n' :: R)
    from rfl]
  rw [headerValueTail_render vl R hv0 hvl hvcr hR]

theorem ne_nil_of_isEmpty_false {l : List Char} (h : l.isEmpty = false) : l ≠ [] := by
  cases l with
  | nil => cases h
  | cons a r => exact List.cons_ne_nil a r

theorem renderHeaders_takeWhile_nil :
    ∀ tl : List (List Char × List Char), tl.all hdrWF = true →
      (renderHeaders tl).takeWhile isCRLF = [] := by
  intro tl h
  cases tl with
  | nil => rfl
  | cons q qs =>
    rw [List.all_cons, Bool.and_eq_true] at h
    obtain ⟨hq, -⟩ := h
    simp only [hdrWF, Bool.and_eq_true, Bool.not_eq_true'] at hq
    obtain ⟨⟨⟨⟨hne, hall⟩, -⟩, -⟩, -⟩ := hq
    cases hq1 : q.1 with
    | nil => exact absurd hq1 (ne_nil_of_isEmpty_false hne)
    | cons c cr =>
      have hc : isWordOrDash c = true := by
        have := List.all_eq_true.1 hall c
        rw [hq1] at this
        exact this (List.mem_cons_self c cr)
      have h0 : renderHeaders (q :: qs) = renderHeaderL q ++ renderHeaders qs := rfl
      rw [h0, renderHeaderL, hq1]
      simp only [List.cons_append, List.append_assoc]
      exact takeWhile_nil_of_head _ _ _ (wordOrDash_not_crlf c hc)

theorem headerScan_renderHeaders :
    ∀ hs : List (List Char × List Char), hs.all hdrWF = true →
      headerScan true (renderHeaders hs) = hs := by
  intro hs
  induction hs with
  | nil => intro _; rfl
  | cons p tl ih =>
    intro h
    rw [List.all_cons, Bool.and_eq_true] at h
    obtain ⟨hp, htl⟩ := h
    simp only [hdrWF, Bool.and_eq_true, Bool.not_eq_true'] at hp
    obtain ⟨⟨⟨⟨hne1, hall1⟩, hne2⟩, hhd⟩, hall2⟩ := hp
    have hnm : p.1 ≠ [] := ne_nil_of_isEmpty_false hne1
    have hnmw : ∀ c ∈ p.1, isWordOrDash c = true := List.all_eq_true.1 hall1
    have hvl : p.2 ≠ [] := ne_nil_of_isEmpty_false hne2
    have hv0 : ∀ c, p.2.head? = some c → isGoSpace c = false := by
      intro c hc
      have : p.2.headD 'x' = c := by
        rw [List.headD_eq_head?_getD, hc]
        rfl
      rw [← this]
      exact hhd
    have hvcr : ∀ c ∈ p.2, isCRLF c = false := by
      intro c hc
      have := List.all_eq_true.1 hall2 c hc
      simpa using this
    have hR : (renderHeaders tl).takeWhile isCRLF = [] := renderHeaders_takeWhile_nil tl htl
    have hrend : renderHeaders (p :: tl) =
        p.1 ++ ':' :: ' ' :: (p.2 ++ '\r' :: '\n' :: renderHeaders tl) := by
      have h0 : renderHeaders (p :: tl) = renderHeaderL p ++ renderHeaders tl := rfl
      rw [h0, renderHeaderL]
      simp [List.append_assoc]
    rw [hrend,
      headerScan_some _ _ _ _ (tryHeaderAt_render p.1 p.2 (renderHeaders tl)
        hnm hnmw hv0 hvl hvcr hR)]
    rw [show (('\n' : Char) == '\n') = true from rfl, ih htl]

theorem headerScan_through (m : List Char) :
    ∀ (b : Bool) (rest : List Char), (∀ c ∈ m, (c == '\n') = false) →
      (b = true → tryHeaderAt (m ++ '\n' :: rest) = none) →
      headerScan b (m ++ '\n' :: rest) = headerScan true rest := by
  induction m with
  | nil =>
    intro b rest hm hb
    rw [List.nil_append] at hb ⊢
    rw [headerScan_cons_skip b '\n' rest hb]
    rw [show (('\n' : Char) == '\n') = true from rfl]
  | cons c m' ih =>
    intro b rest hm hb
    rw [List.cons_append] at hb ⊢
    rw [headerScan_cons_skip b c (m' ++ '\n' :: rest) hb]
    rw [hm c (List.mem_cons_self c m')]
    exact ih false rest (fun x hx => hm x (List.mem_cons_of_mem c hx))
      (fun hff => (Bool.false_ne_true hff).elim)

theorem digit_not_space (c : Char) (h : isGoDigit c = true) : isGoSpace c = false := by
  have h1 : c ≠ ' ' := by intro hc; subst hc; exact absurd h (by decide)
  have h2 : c ≠ '\t' := by intro hc; subst hc; exact absurd h (by decide)
  have h3 : c ≠ '\n' := by intro hc; subst hc; exact absurd h (by decide)
  have h4 : c ≠ '\x0c' := by intro hc; subst hc; exact absurd h (by decide)
  have h5 : c ≠ '\r' := by intro hc; subst hc; exact absurd h (by decide)
  simp [isGoSpace, h1, h2, h3, h4, h5]

theorem digit_ne_newline (c : Char) (h : isGoDigit c = true) : (c == '\n') = false := by
  have h1 : c ≠ '\n' := by intro hc; subst hc; exact absurd h (by decide)
  simp [h1]

theorem digit_not_dot (c : Char) (h : isGoDigit c = true) : c ≠ '.' := by
  intro hc; subst hc; exact absurd h (by decide)

theorem takeWhile_HTTP (t : List Char) :
    ('H' :: 'T' :: 'T' :: 'P' :: '/' :: t).takeWhile isWordOrDash = ['H', 'T', 'T', 'P'] := by
  rw [List.takeWhile_cons, if_pos (by decide), List.takeWhile_cons, if_pos (by decide),
    List.takeWhile_cons, if_pos (by decide), List.takeWhile_cons, if_pos (by decide),
    List.takeWhile_cons, if_neg (by decide)]

theorem dropWhile_HTTP (t : List Char) :
    ('H' :: 'T' :: 'T' :: 'P' :: '/' :: t).dropWhile isWordOrDash = '/' :: t := by
  rw [List.dropWhile_cons, if_pos (by decide), List.dropWhile_cons, if_pos (by decide),
    List.dropWhile_cons, if_pos (by decide), List.dropWhile_cons, if_pos (by decide),
    List.dropWhile_cons, if_neg (by decide)]

theorem tryHeaderAt_HTTP (t : List Char) :
    tryHeaderAt ('H' :: 'T' :: 'T' :: 'P' :: '/' :: t) = none := by
  dsimp only [tryHeaderAt]
  rw [takeWhile_HTTP t, dropWhile_HTTP t]
  have hne : ('/' :: t).head? ≠ some ':' := by
    intro hcon
    rw [List.head?_cons] at hcon
    exact absurd (Option.some.inj hcon) (by decide)
  rw [if_neg (by simp), if_pos hne]

theorem wf_fields (r : RawResponse) (h : r.wf = true) :
    r.v1 ≠ [] ∧ (∀ c ∈ r.v1, isGoDigit c = true) ∧
    r.v2 ≠ [] ∧ (∀ c ∈ r.v2, isGoDigit c = true) ∧
    r.code ≠ [] ∧ (∀ c ∈ r.code, isGoDigit c = true) ∧ digitsToNat r.code ≤ maxInt64 ∧
    (∀ c ∈ r.reason, (c == '\n') = false) ∧ r.headers.all hdrWF = true := by
  simp only [RawResponse.wf, Bool.and_eq_true, Bool.not_eq_true', decide_eq_true_eq] at h
  obtain ⟨⟨⟨⟨⟨⟨⟨⟨h1, h2⟩, h3⟩, h4⟩, h5⟩, h6⟩, h7⟩, h8⟩, h9⟩ := h
  refine ⟨ne_nil_of_isEmpty_false h1, List.all_eq_true.1 h2, ne_nil_of_isEmpty_false h3,
    List.all_eq_true.1 h4, ne_nil_of_isEmpty_false h5, List.all_eq_true.1 h6, h7, ?_, h9⟩
  intro c hc
  have := List.all_eq_true.1 h8 c hc
  simpa using this

theorem renderResponse_norm (r : RawResponse) :
    renderResponse r = 'H' :: 'T' :: 'T' :: 'P' :: '/' ::
      (r.v1 ++ '.' :: (r.v2 ++ ' ' ::
        (r.code ++ ' ' :: (r.reason ++ '\r' :: '\n' :: renderHeaders r.headers)))) := by
  have h0 : str "HTTP/" = ['H', 'T', 'T', 'P', '/'] := rfl
  simp [renderResponse, statusLineChars, h0, List.append_assoc]

theorem statusCapture_shape (v1 v2 code Y : List Char)
    (hv1e : v1 ≠ []) (hv1d : ∀ c ∈ v1, isGoDigit c = true)
    (hv2e : v2 ≠ []) (hv2d : ∀ c ∈ v2, isGoDigit c = true)
    (hce : code ≠ []) (hcd : ∀ c ∈ code, isGoDigit c = true) :
    statusCapture ('H' :: 'T' :: 'T' :: 'P' :: '/' ::
      (v1 ++ '.' :: (v2 ++ ' ' :: (code ++ ' ' :: Y)))) = some (v1 ++ '.' :: v2, code) := by
  have hdrop5 : ('H' :: 'T' :: 'T' :: 'P' :: '/' ::
      (v1 ++ '.' :: (v2 ++ ' ' :: (code ++ ' ' :: Y)))).drop 5 =
      v1 ++ '.' :: (v2 ++ ' ' :: (code ++ ' ' :: Y)) := rfl
  have htake5 : ('H' :: 'T' :: 'T' :: 'P' :: '/' ::
      (v1 ++ '.' :: (v2 ++ ' ' :: (code ++ ' ' :: Y)))).take 5 = str "HTTP/" := rfl
  have ht1 : (v1 ++ '.' :: (v2 ++ ' ' :: (code ++ ' ' :: Y))).takeWhile isGoDigit = v1 :=
    takeWhile_stop _ _ _ hv1d (takeWhile_nil_of_head _ _ _ (by decide))
  have hd1 : (v1 ++ '.' :: (v2 ++ ' ' :: (code ++ ' ' :: Y))).dropWhile isGoDigit =
      '.' :: (v2 ++ ' ' :: (code ++ ' ' :: Y)) := by
    rw [dropWhile_all_append _ _ _ hv1d, dropWhile_id_of_head _ _ _ (by decide)]
  have htl1 : ('.' :: (v2 ++ ' ' :: (code ++ ' ' :: Y))).tail =
      v2 ++ ' ' :: (code ++ ' ' :: Y) := rfl
  have ht2 : (v2 ++ ' ' :: (code ++ ' ' :: Y)).takeWhile isGoDigit = v2 :=
    takeWhile_stop _ _ _ hv2d (takeWhile_nil_of_head _ _ _ (by decide))
  have hd2 : (v2 ++ ' ' :: (code ++ ' ' :: Y)).dropWhile isGoDigit =
      ' ' :: (code ++ ' ' :: Y) := by
    rw [dropWhile_all_append _ _ _ hv2d, dropWhile_id_of_head _ _ _ (by decide)]
  have hws : (' ' :: (code ++ ' ' :: Y)).takeWhile isGoSpace ≠ [] := by
    rw [List.takeWhile_cons, if_pos (show isGoSpace ' ' = true by decide)]
    simp
  have hr4 : (' ' :: (code ++ ' ' :: Y)).dropWhile isGoSpace = code ++ ' ' :: Y := by
    rw [List.dropWhile_cons, if_pos (show isGoSpace ' ' = true by decide)]
    cases hc : code with
    | nil => exact absurd hc hce
    | cons c0 ct =>
      rw [List.cons_append, List.dropWhile_cons,
        if_neg (by simp [digit_not_space c0 (hcd c0 (hc ▸ List.mem_cons_self c0 ct))])]
  have ht3 : (code ++ ' ' :: Y).takeWhile isGoDigit = code :=
    takeWhile_stop _ _ _ hcd (takeWhile_nil_of_head _ _ _ (by decide))
  have hd3 : (code ++ ' ' :: Y).dropWhile isGoDigit = ' ' :: Y := by
    rw [dropWhile_all_append _ _ _ hcd, dropWhile_id_of_head _ _ _ (by decide)]
  dsimp only [statusCapture]
  rw [hdrop5, htake5, ht1, hd1, htl1, ht2, hd2, hr4, ht3, hd3, List.head?_cons]
  simp [hv1e, hv2e, hce, hws]
  decide

theorem statusCapture_render (r : RawResponse) (h : r.wf = true) :
    statusCapture (renderResponse r) = some (r.v1 ++ '.' :: r.v2, r.code) := by
  obtain ⟨hv1e, hv1d, hv2e, hv2d, hce, hcd, -, -, -⟩ := wf_fields r h
  rw [renderResponse_norm r]
  exact statusCapture_shape r.v1 r.v2 r.code _ hv1e hv1d hv2e hv2d hce hcd

theorem headerScan_renderResponse (r : RawResponse) (h : r.wf = true) :
    headerScan true (renderResponse r) = r.headers := by
  obtain ⟨-, hv1d, -, hv2d, -, hcd, -, hreas, hhdrs⟩ := wf_fields r h
  have hsplit : renderResponse r =
      ('H' :: 'T' :: 'T' :: 'P' :: '/' ::
        (r.v1 ++ '.' :: (r.v2 ++ ' ' :: (r.code ++ ' ' :: (r.reason ++ ['\r']))))) ++
        '\n' :: renderHeaders r.headers := by
    rw [renderResponse_norm r]
    simp [List.append_assoc]
  have hm : ∀ c ∈ ('H' :: 'T' :: 'T' :: 'P' :: '/' ::
      (r.v1 ++ '.' :: (r.v2 ++ ' ' :: (r.code ++ ' ' :: (r.reason ++ ['\r']))))),
      (c == '\n') = false := by
    simp only [List.forall_mem_cons, List.forall_mem_append]
    exact ⟨by decide, by decide, by decide, by decide, by decide,
      fun c hc => digit_ne_newline c (hv1d c hc), by decide,
      fun c hc => digit_ne_newline c (hv2d c hc), by decide,
      fun c hc => digit_ne_newline c (hcd c hc), by decide,
      fun c hc => hreas c hc, by simp⟩
  rw [hsplit, headerScan_through _ true _ hm (fun _ => tryHeaderAt_HTTP _)]
  exact headerScan_renderHeaders r.headers hhdrs

theorem option_map_snd_or (a b : Option (List Char × List Char)) :
    Option.map Prod.snd (a.or b) = (Option.map Prod.snd a).or (Option.map Prod.snd b) := by
  cases a <;> rfl

theorem option_or_assoc (a b c : Option (List Char)) :
    (a.or b).or c = a.or (b.or c) := by
  cases a <;> rfl

theorem lookupA_insertA (m : List (List Char × List Char)) (k v k' : List Char) :
    lookupA (insertA m k v) k' = if k == k' then some v else lookupA m k' := by
  induction m with
  | nil => rfl
  | cons q rest ih =>
    obtain ⟨k1, v1⟩ := q
    simp only [insertA]
    by_cases h1 : (k1 == k) = true
    · rw [if_pos h1]
      have hk : k1 = k := eq_of_beq h1
      subst hk
      simp only [lookupA]
      by_cases h2 : (k1 == k') = true
      · simp [h2]
      · simp [h2]
    · rw [if_neg h1]
      simp only [lookupA]
      rw [ih]
      by_cases h2 : (k1 == k') = true
      · have hk1 : k1 = k' := eq_of_beq h2
        subst hk1
        have h3 : (k == k1) = false := by
          rw [Bool.eq_false_iff]
          intro hc
          exact h1 (by rw [eq_of_beq hc]; simp)
        simp [h2, h3]
      · simp [h2]

theorem lookupA_foldl (l : List (List Char × List Char)) :
    ∀ (m : List (List Char × List Char)) (k : List Char),
      lookupA (l.foldl (fun acc p => insertA acc p.1 p.2) m) k =
        ((l.reverse.find? (fun q => q.1 == k)).map Prod.snd).or (lookupA m k) := by
  induction l with
  | nil =>
    intro m k
    simp
  | cons p tl ih =>
    intro m k
    show lookupA (tl.foldl (fun acc q => insertA acc q.1 q.2) (insertA m p.1 p.2)) k = _
    rw [ih (insertA m p.1 p.2) k, lookupA_insertA]
    rw [List.reverse_cons, List.find?_append]
    rw [option_map_snd_or, option_or_assoc]
    congr 1
    cases hp : (p.1 == k) with
    | true =>
      have hfind : List.find? (fun q => q.1 == k) [p] = some p := by
        unfold List.find?
        rw [hp]
      rw [hfind]
      simp
    | false =>
      have hfind : List.find? (fun q => q.1 == k) [p] = none := by
        unfold List.find?
        rw [hp]
        rfl
      rw [hfind]
      simp

theorem extract_render (r : RawResponse) (h : r.wf = true) :
    extractResponseData (renderResponse r) =
      (r.v1 ++ '.' :: r.v2, digitsToNat r.code,
        r.headers.foldl (fun m p => insertA m (lowerL p.1) p.2) []) := by
  obtain ⟨-, -, -, -, -, -, hbound, -, -⟩ := wf_fields r h
  dsimp only [extractResponseData]
  rw [headerScan_renderResponse r h, statusCapture_render r h]
  show (r.v1 ++ '.' :: r.v2, goAtoi r.code,
    r.headers.foldl (fun m p => insertA m (lowerL p.1) p.2) []) = _
  rw [show goAtoi r.code = digitsToNat r.code from Nat.min_eq_left hbound]

/-- C3 counterexample: on the raw response
`HTTP/1.1 200 OK\r\nA: \r\nB: x\r\n`, whose header lines are `A: ` (empty
value) and `B: x`, the greedy `\s*` of the header pattern swallows the line
break after `A:` together with the whole next line, so the header map lacks
`b` entirely and maps `a` to `B: x` — refuting the claim that every listed
header name is mapped to its value. -/
theorem c3_counterexample :
    lookupA (extractResponseData (str "HTTP/1.1 200 OK\r\nA: \r\nB: x\r\n")).2.2 (str "b") =
      none ∧
    lookupA (extractResponseData (str "HTTP/1.1 200 OK\r\nA: \r\nB: x\r\n")).2.2 (str "a") =
      some (str "B: x") := by
  constructor <;> decide

/-- C3 amended: for every raw response text consisting of a valid
`HTTP/<v> <code> <reason>` status line followed by zero or more
`name: value` header lines whose values are nonempty and do not begin with
whitespace, `extractResponseData` reports exactly `<v>` and `<code>`, and
the header map contains every listed header name lower-cased, mapped to the
value of its last occurrence (later duplicates override earlier ones). -/
theorem c3_amended (r : RawResponse) (h : r.wf = true) :
    (extractResponseData (renderResponse r)).1 = r.v1 ++ '.' :: r.v2 ∧
    (extractResponseData (renderResponse r)).2.1 = digitsToNat r.code ∧
    ∀ p ∈ r.headers,
      lookupA (extractResponseData (renderResponse r)).2.2 (lowerL p.1) =
        (r.headers.reverse.find? (fun q => lowerL q.1 == lowerL p.1)).map Prod.snd ∧
      (r.headers.reverse.find? (fun q => lowerL q.1 == lowerL p.1)).isSome = true := by
  rw [extract_render r h]
  refine ⟨rfl, rfl, ?_⟩
  intro p hp
  constructor
  · have hfold : r.headers.foldl (fun m q => insertA m (lowerL q.1) q.2) [] =
        (r.headers.map (fun q => (lowerL q.1, q.2))).foldl (fun m q => insertA m q.1 q.2) [] := by
      rw [List.foldl_map]
    show lookupA (r.headers.foldl (fun m q => insertA m (lowerL q.1) q.2) []) (lowerL p.1) = _
    rw [hfold, lookupA_foldl]
    rw [show lookupA [] (lowerL p.1) = none from rfl, Option.or_none]
    rw [← List.map_reverse, List.find?_map, Option.map_map]
    rfl
  · exact List.find?_isSome.2 ⟨p, List.mem_reverse.2 hp, by simp⟩

/-- Witness for C3's amended theorem at the spec's normalizer example. -/
theorem c3_amended_witness :
    sampleRaw.wf = true ∧
    (extractResponseData (renderResponse sampleRaw)).1 = str "1.1" ∧
    (extractResponseData (renderResponse sampleRaw)).2.1 = digitsToNat sampleRaw.code ∧
    ∀ p ∈ sampleRaw.headers,
      lookupA (extractResponseData (renderResponse sampleRaw)).2.2 (lowerL p.1) =
        (sampleRaw.headers.reverse.find? (fun q => lowerL q.1 == lowerL p.1)).map Prod.snd ∧
      (sampleRaw.headers.reverse.find? (fun q => lowerL q.1 == lowerL p.1)).isSome = true :=
  ⟨by decide, (c3_amended sampleRaw (by decide)).1, (c3_amended sampleRaw (by decide)).2.1,
    (c3_amended sampleRaw (by decide)).2.2⟩
